import Mathlib

/-!
Maze game (`src/maze.c`): embedding and verified properties.

The C program keeps one `Maze` record: a `MAX_SIZE × MAX_SIZE` character
grid, the dimensions, and the player's column and row.  This file embeds

* `loadMaze`   (lines 23-111): the `fgets` read loop, the dimension check and
  the search for the start marker,
* `displayMap` (lines 117-131), as the characters it writes,
* `isAtExit`   (lines 138-141),
* `isValidMove` (lines 150-162),
* `movePlayer` (lines 169-190),
* `gameLoop`   (lines 196-228), run over a finite list of command characters.

Conventions.  A C `char` is a Lean `Char`; the C `int`s of the record are
`Int`.  A `char[MAX_SIZE]` buffer is a function `Nat → Char` and the grid a
function `Nat → Nat → Char` (row first, as in `grid[y][x]`); only indices
below `MAX_SIZE` are memory of the record.  The open file is the list of
characters still unread.
-/

namespace MazeGame

/-- The constant `MAX_SIZE` of line 6. -/
def MAX_SIZE : Nat := 100

/-- The string terminator `'\0'`. -/
def NUL : Char := Char.ofNat 0

/-- One `char[MAX_SIZE]` row buffer. -/
abbrev Row := Nat → Char

/-- The array `char grid[MAX_SIZE][MAX_SIZE]`, indexed row first. -/
abbrev Grid := Nat → Row

/-- The record `Maze` of lines 9-15. -/
structure Maze where
  grid : Grid
  width : Int
  height : Int
  playerX : Int
  playerY : Int

/-! ## C library functions used by `loadMaze` -/

/-- The characters one `fgets` call takes when it has room for `k` of them:
at most `k`, stopping right after a newline (which is taken) or at the end
of the file.  Returns the characters taken and the unread rest. -/
def fgetsRead : Nat → List Char → List Char × List Char
  | 0, fp => ([], fp)
  | _ + 1, [] => ([], [])
  | k + 1, c :: fp =>
    if c = '\n' then ([c], fp)
    else (c :: (fgetsRead k fp).1, (fgetsRead k fp).2)

/-- Write the characters `s` and a terminating NUL at the start of `buf`;
the bytes behind the terminator keep their old value. -/
def storeString (buf : Row) (s : List Char) : Row :=
  fun i => if i < s.length then s.getD i NUL else if i = s.length then NUL else buf i

/-- The call `fgets(buf, n, fp)`: `none` is the `NULL` result (end of file
with nothing read, buffer untouched); otherwise the new buffer and the
unread rest of the file. -/
def fgets (buf : Row) (n : Nat) (fp : List Char) : Option (Row × List Char) :=
  match fp with
  | [] => none
  | _ :: _ => some (storeString buf (fgetsRead (n - 1) fp).1, (fgetsRead (n - 1) fp).2)

/-- Scan for the first NUL from index `i`, looking at no more than `k` bytes. -/
def strlenFrom (buf : Row) : Nat → Nat → Nat
  | 0, i => i
  | k + 1, i => if buf i = NUL then i else strlenFrom buf k (i + 1)

/-- The call `strlen(buf)` on a `char[MAX_SIZE]` buffer: the index of its
first NUL.  The scan is bounded by the size of the buffer. -/
def strlen (buf : Row) : Nat := strlenFrom buf MAX_SIZE 0

/-- The assignment `buf[i] = c`. -/
def setAt (buf : Row) (i : Nat) (c : Char) : Row :=
  fun j => if j = i then c else buf j

/-- Replace row `y` of the grid by `buf`. -/
def setRow (g : Grid) (y : Nat) (buf : Row) : Grid :=
  fun i => if i = y then buf else g i

/-! ## `loadMaze` -/

/-- The locals of `loadMaze` that live across the read loop (lines 42-47),
with the grid being filled and the unread part of the file. -/
structure ReadState where
  grid : Grid
  row : Nat
  startCount : Nat
  endCount : Nat
  fp : List Char

/-- The counting loop of lines 63-66 for one character: how many columns
`col < len` of `buf` hold `ch`. -/
def countIn (buf : Row) (ch : Char) (len : Nat) : Nat :=
  (List.range len).countP (fun col => buf col == ch)

/-- The body of the read loop (lines 48-68) after a successful `fgets` left
`buf` in `grid[row]` and `fp` unread: strip the newline, the truncation
branch, the counting, `row++`. -/
def readBody (st : ReadState) (buf : Row) (fp : List Char) : ReadState :=
  let len := strlen buf
  let strip : Bool := decide (len > 0) && (buf (len - 1) == '\n')
  let buf1 := if strip then setAt buf (len - 1) NUL else buf
  let len1 := if strip then len - 1 else len
  let trunc : Bool := decide (len1 ≥ MAX_SIZE)
  let buf2 := if trunc then setAt buf1 (MAX_SIZE - 1) NUL else buf1
  let len2 := if trunc then MAX_SIZE - 1 else len1
  { grid := setRow st.grid st.row buf2
    row := st.row + 1
    startCount := st.startCount + countIn buf2 'S' len2
    endCount := st.endCount + countIn buf2 'E' len2
    fp := fp }

/-- The read loop of lines 47-73, unrolled at most `fuel` times. -/
def readLoop : Nat → ReadState → ReadState
  | 0, st => st
  | fuel + 1, st =>
    match fgets (st.grid st.row) MAX_SIZE st.fp with
    | none => st
    | some (buf, fp) =>
      if (readBody st buf fp).row ≥ MAX_SIZE then readBody st buf fp
      else readLoop fuel (readBody st buf fp)

/-- The grid after the clearing loops of lines 36-40. -/
def clearedGrid : Grid := fun _ _ => NUL

/-- The state of `loadMaze` at line 74, for a file that was opened with the
given content.  The loop leaves at the latest when `row` reaches `MAX_SIZE`,
so `MAX_SIZE` unrollings are enough (`readLoop_fuel`). -/
def readMaze (content : List Char) : ReadState :=
  readLoop MAX_SIZE
    { grid := clearedGrid, row := 0, startCount := 0, endCount := 0, fp := content }

/-- The inner loop of line 93 from column `x` with `k` columns to go: the
first column holding `'S'`. -/
def findStartCol (g : Grid) (y : Nat) : Nat → Nat → Option Nat
  | 0, _ => none
  | k + 1, x => if g y x = 'S' then some x else findStartCol g y k (x + 1)

/-- The outer loop of line 92 from row `y` with `k` rows to go: the first
`(row, column)` at which the inner loop finds `'S'`. -/
def findStart (g : Grid) (width : Nat) : Nat → Nat → Option (Nat × Nat)
  | 0, _ => none
  | k + 1, y =>
    match findStartCol g y width 0 with
    | some x => some (y, x)
    | none => findStart g width k (y + 1)

/-- The two `return false` exits of `loadMaze` behind the read loop, named
after what they report: the dimension check of lines 83-88 and the missing
start marker of lines 104-107. -/
inductive LoadError where
  | InvalidDimensions
  | MissingStart
  deriving DecidableEq, Repr

/-- The function `loadMaze` on a file that `fopen` could open, given as its
content: `.ok maze` is `return true` with the record as left in `*maze`. -/
def loadMaze (content : List Char) : Except LoadError Maze :=
  let st := readMaze content
  let height := st.row
  let width := strlen (st.grid 0)
  if height < 5 ∨ height > 100 ∨ width < 5 ∨ width > 100 then
    .error .InvalidDimensions
  else
    match findStart st.grid width height 0 with
    | some (y, x) =>
      .ok { grid := st.grid, width := width, height := height, playerX := x, playerY := y }
    | none => .error .MissingStart

/-! ## Maze state operations -/

/-- The cell `grid[y][x]` for `int` indices. -/
def Maze.cell (maze : Maze) (x y : Int) : Char := maze.grid y.toNat x.toNat

/-- The function `isAtExit` (lines 138-141). -/
def isAtExit (maze : Maze) : Bool :=
  maze.cell maze.playerX maze.playerY == 'E'

/-- The function `isValidMove` (lines 150-162). -/
def isValidMove (maze : Maze) (newX newY : Int) : Bool :=
  if newX < 0 ∨ newX ≥ maze.width ∨ newY < 0 ∨ newY ≥ maze.height then false
  else if maze.cell newX newY = '#' then false
  else true

/-- The `switch` of lines 173-179: the pair `(dx, dy)` of a movement
character, `none` for the `default` branch. -/
def moveDelta (direction : Char) : Option (Int × Int) :=
  if direction = 'W' ∨ direction = 'w' then some (0, -1)
  else if direction = 'S' ∨ direction = 's' then some (0, 1)
  else if direction = 'A' ∨ direction = 'a' then some (-1, 0)
  else if direction = 'D' ∨ direction = 'd' then some (1, 0)
  else none

/-- The function `movePlayer` (lines 169-190). -/
def movePlayer (maze : Maze) (direction : Char) : Maze :=
  match moveDelta direction with
  | none => maze
  | some (dx, dy) =>
    let newX := maze.playerX + dx
    let newY := maze.playerY + dy
    if isValidMove maze newX newY then { maze with playerX := newX, playerY := newY }
    else maze

/-- The inner loop of `displayMap` (lines 121-128) from column `x` with `k`
columns to go: the characters printed for row `y`, `'X'` at the player's
cell and the stored character elsewhere. -/
def displayCols (maze : Maze) (y : Nat) : Nat → Nat → List Char
  | 0, _ => []
  | k + 1, x =>
    (if (y : Int) = maze.playerY ∧ (x : Int) = maze.playerX then 'X' else maze.grid y x) ::
      displayCols maze y k (x + 1)

/-- The outer loop of `displayMap` (lines 120-130) from row `y` with `k` rows
to go: for each row its characters and then the newline of line 129. -/
def displayRows (maze : Maze) : Nat → Nat → List Char
  | 0, _ => []
  | k + 1, y => displayCols maze y maze.width.toNat 0 ++ '\n' :: displayRows maze k (y + 1)

/-- The function `displayMap` (lines 117-131): the characters written to
standard output, in order. -/
def displayMap (maze : Maze) : List Char := displayRows maze maze.height.toNat 0

/-- The lines of an output text: the pieces that a newline ends, and the
unfinished piece behind the last newline when there is one. -/
def stdoutLines : List Char → List (List Char)
  | [] => []
  | c :: cs =>
    if c = '\n' then [] :: stdoutLines cs
    else
      match stdoutLines cs with
      | [] => [[c]]
      | l :: ls => (c :: l) :: ls

/-- How a run of the game loop over a finite input stands at its end. -/
inductive Outcome where
  | quit
  | win
  | running
  deriving DecidableEq, Repr

/-- The function `gameLoop` (lines 196-228) on the command characters that
`scanf(" %c")` delivers, in order.  `running` means that the commands given
are used up and the loop waits for the next one. -/
def gameLoop (maze : Maze) : List Char → Maze × Outcome
  | [] => (maze, .running)
  | command :: rest =>
    if command = 'Q' ∨ command = 'q' then (maze, .quit)
    else if command = 'M' ∨ command = 'm' then gameLoop maze rest
    else if isAtExit (movePlayer maze command) then (movePlayer maze command, .win)
    else gameLoop (movePlayer maze command) rest

/-! ## Concrete inputs -/

/-- A grid holding the given rows as C strings: row `y` is `rows[y]`
followed by NUL bytes, and the rows past the last one are all NUL. -/
def gridOfRows (rows : List String) : Grid :=
  fun y x => ((rows.getD y "").toList).getD x NUL

/-- The rows `"#####"`, `"#S.E#"`, `"#####"` as a maze state with the player
on the start marker (row 1, column 1). -/
def scenarioMaze : Maze :=
  { grid := gridOfRows ["#####", "#S.E#", "#####"]
    width := 5, height := 3, playerX := 1, playerY := 1 }

/-- The rows of `scenarioFile` followed by two more wall rows. -/
def fiveRowFile : List Char := "#####\n#S.E#\n#####\n#####\n#####".toList

/-- The maze that `loadMaze` returns for `fiveRowFile`. -/
def fiveRowMaze : Maze :=
  { grid := (readMaze fiveRowFile).grid, width := 5, height := 5, playerX := 1, playerY := 1 }

/-- Five rows of width 5 without a start marker. -/
def noStartFile : List Char := "#####\n#...#\n#..E#\n#...#\n#####".toList

/-- Five rows of three characters. -/
def narrowFile : List Char := "###\n#S#\n#.#\n#E#\n###".toList

/-- Five rows of which row 1 is longer than row 0 and holds its only `'S'`
at column 5, behind the width; the first `'S'` inside the width is in row 2. -/
def lateStartFile : List Char := "#####\n#...#S\n#S.E#\n#...#\n#####".toList

/-- The maze that `loadMaze` returns for `lateStartFile`. -/
def lateStartMaze : Maze :=
  { grid := (readMaze lateStartFile).grid, width := 5, height := 5, playerX := 1, playerY := 2 }

/-- Five rows of width 5 with two start markers in row 1. -/
def twoStartFile : List Char := "#####\n#S.S#\n#...#\n#..E#\n#####".toList

/-- The maze that `loadMaze` returns for `twoStartFile`. -/
def twoStartMaze : Maze :=
  { grid := (readMaze twoStartFile).grid, width := 5, height := 5, playerX := 1, playerY := 1 }

/-- A file of five lines whose first line has 100 characters `'#'`; the
other four lines are `"#S.E#"`, `"#...#"`, `"#...#"`, `"#####"`. -/
def longLineFile : List Char :=
  List.replicate 100 '#' ++ "\n#S.E#\n#...#\n#...#\n#####".toList

/-- The C string held by a row buffer: its characters before the first NUL. -/
def rowString (buf : Row) : List Char := (List.range (strlen buf)).map buf

/-- Every byte of the grid is NUL or a character of the file. -/
def CharsFrom (content : List Char) (g : Grid) : Prop :=
  ∀ y x, g y x = NUL ∨ g y x ∈ content

/-- The example rows with the player standing on the exit marker (row 1,
column 3). -/
def exitMaze : Maze :=
  { grid := gridOfRows ["#####", "#S.E#", "#####"]
    width := 5, height := 3, playerX := 3, playerY := 1 }

/-- The player's column and row are indices of the maze: `0 <= playerX <
width` and `0 <= playerY < height`. -/
def InBounds (maze : Maze) : Prop :=
  (0 ≤ maze.playerX ∧ maze.playerX < maze.width) ∧
    (0 ≤ maze.playerY ∧ maze.playerY < maze.height)

/-- Lines 49-53 on a row buffer: the buffer after the newline strip. -/
def stripNewline (buf : Row) : Row :=
  if (decide (strlen buf > 0) && (buf (strlen buf - 1) == '\n')) = true then
    setAt buf (strlen buf - 1) NUL
  else buf

/-- Every byte of the row from the end of its string on is NUL. -/
def Padded (buf : Row) : Prop := ∀ x, strlen buf ≤ x → buf x = NUL

/-- The file made of the given lines, each followed by a newline. -/
def joinLines : List (List Char) → List Char
  | [] => []
  | l :: ls => l ++ '\n' :: joinLines ls

/-- A file of 101 lines: a first line of 99 characters `'#'` and then 100
lines `"#S..#"`. -/
def wideLines : List (List Char) :=
  List.replicate 99 '#' :: List.replicate 100 "#S..#".toList

/-- The file content of `wideLines`. -/
def wideFile : List Char := joinLines wideLines

/-- A file of 101 lines: a first line of five characters with a NUL byte in
the middle and then 100 lines `"#S..#"`. -/
def nulLines : List (List Char) :=
  ['#', '#', NUL, '#', '#'] :: List.replicate 100 "#S..#".toList

/-- The file content of `nulLines`. -/
def nulFile : List Char := joinLines nulLines

/-- Five rows of width 5 whose only `'S'` is at column 5 of the longer
row 1, behind the width. -/
def hiddenStartFile : List Char := "#####\n#...#S\n#...#\n#..E#\n#####".toList

/-- Five rows of width 5 of which row 1 is the short line `"#S"`. -/
def shortRowFile : List Char := "#####\n#S\n#...#\n#..E#\n#####".toList

/-- The maze that `loadMaze` returns for `shortRowFile`. -/
def shortRowMaze : Maze :=
  { grid := (readMaze shortRowFile).grid, width := 5, height := 5, playerX := 1, playerY := 1 }

/-- Five lines of which line 1 holds a NUL byte between `"#S"` and `"##"`. -/
def nulRowFile : List Char :=
  "#####\n#S".toList ++ NUL :: "##\n#...#\n#..E#\n#####".toList

/-- The maze that `loadMaze` returns for `nulRowFile`. -/
def nulRowMaze : Maze :=
  { grid := (readMaze nulRowFile).grid, width := 5, height := 5, playerX := 1, playerY := 1 }

/-- One hundred short lines `"#S..#"`. -/
def shortLines : List (List Char) := List.replicate 100 "#S..#".toList

/-- The loop state of `readMaze` before the first `fgets` call. -/
def startState (content : List Char) : ReadState :=
  { grid := clearedGrid, row := 0, startCount := 0, endCount := 0, fp := content }

/-- Five lines of width 7 of which line 1 holds a NUL byte behind `"#S"`,
so that its newline is not stripped and stays in the grid at row 1,
column 6. -/
def newlineCellFile : List Char :=
  "#######\n#S".toList ++ NUL :: "..#\n#.....#\n#....E#\n#######".toList

/-- The maze that `loadMaze` returns for `newlineCellFile`. -/
def newlineCellMaze : Maze :=
  { grid := (readMaze newlineCellFile).grid, width := 7, height := 5, playerX := 1, playerY := 1 }

/-- The loop state `st` with `fp` as the unread part of the file. -/
def withFp (st : ReadState) (fp : List Char) : ReadState :=
  { grid := st.grid, row := st.row, startCount := st.startCount, endCount := st.endCount,
    fp := fp }

/-- A file of 99 lines `"#S..#"` followed by a line of 150 characters, 99
times `'#'` and 51 times `'.'`, and a last line `"#####"`. -/
def lastRowLongFile : List Char :=
  joinLines (List.replicate 99 "#S..#".toList) ++
    (List.replicate 99 '#' ++ List.replicate 51 '.' ++ "\n#####".toList)

/-- A line of 120 characters, 99 times `'#'` and 21 times `'.'`. -/
def midLongLine : List Char := List.replicate 99 '#' ++ List.replicate 21 '.'

/-! ## The read loop -/

theorem fgetsRead_append : ∀ (k : Nat) (fp : List Char),
    (fgetsRead k fp).1 ++ (fgetsRead k fp).2 = fp := by
  intro k
  induction k with
  | zero => intro fp; rfl
  | succ k ih =>
    intro fp
    cases fp with
    | nil => rfl
    | cons c fp =>
      unfold fgetsRead
      by_cases hc : c = '\n'
      · rw [if_pos hc]; rfl
      · rw [if_neg hc]
        show c :: ((fgetsRead k fp).1 ++ (fgetsRead k fp).2) = c :: fp
        rw [ih fp]

theorem fgetsRead_length_le : ∀ (k : Nat) (fp : List Char), (fgetsRead k fp).1.length ≤ k := by
  intro k
  induction k with
  | zero => intro fp; exact le_refl _
  | succ k ih =>
    intro fp
    cases fp with
    | nil => exact Nat.zero_le _
    | cons c fp =>
      unfold fgetsRead
      by_cases hc : c = '\n'
      · rw [if_pos hc]; exact Nat.succ_le_succ (Nat.zero_le _)
      · rw [if_neg hc]; exact Nat.succ_le_succ (ih fp)

theorem readBody_row (st : ReadState) (buf : Row) (fp : List Char) :
    (readBody st buf fp).row = st.row + 1 := rfl

theorem readBody_fp (st : ReadState) (buf : Row) (fp : List Char) :
    (readBody st buf fp).fp = fp := rfl

/-- Enough fuel: once `fuel` covers the rows left up to `MAX_SIZE`, more
unrollings change nothing, because the loop leaves when `row` reaches
`MAX_SIZE`. -/
theorem readLoop_fuel : ∀ (fuel : Nat) (st : ReadState), st.row < MAX_SIZE →
    MAX_SIZE ≤ st.row + fuel → ∀ k, readLoop (fuel + k) st = readLoop fuel st := by
  intro fuel
  induction fuel with
  | zero => intro st h1 h2; omega
  | succ fuel ih =>
    intro st h1 h2 k
    rw [show fuel + 1 + k = (fuel + k) + 1 by omega]
    unfold readLoop
    cases hf : fgets (st.grid st.row) MAX_SIZE st.fp with
    | none => rfl
    | some r =>
      obtain ⟨buf, fp⟩ := r
      simp only
      by_cases hr : (readBody st buf fp).row ≥ MAX_SIZE
      · rw [if_pos hr, if_pos hr]
      · rw [if_neg hr, if_neg hr]
        rw [readBody_row] at hr
        exact ih (readBody st buf fp) (by rw [readBody_row]; omega)
          (by rw [readBody_row]; omega) k

/-- The read loop with any larger number of unrollings gives the state of
`readMaze`. -/
theorem readMaze_fuel (content : List Char) (k : Nat) :
    readLoop (MAX_SIZE + k)
      { grid := clearedGrid, row := 0, startCount := 0, endCount := 0, fp := content } =
    readMaze content :=
  readLoop_fuel MAX_SIZE _ (show 0 < MAX_SIZE by decide)
    (show MAX_SIZE ≤ 0 + MAX_SIZE by decide) k

theorem storeString_chars (buf : Row) (s : List Char) (i : Nat) :
    storeString buf s i = NUL ∨ storeString buf s i ∈ s ∨ storeString buf s i = buf i := by
  unfold storeString
  by_cases h1 : i < s.length
  · rw [if_pos h1]
    right; left
    rw [List.getD_eq_getElem s NUL h1]
    exact List.getElem_mem h1
  · rw [if_neg h1]
    by_cases h2 : i = s.length
    · rw [if_pos h2]; left; rfl
    · rw [if_neg h2]; right; right; rfl

theorem setAt_NUL_chars (buf : Row) (i j : Nat) :
    setAt buf i NUL j = NUL ∨ setAt buf i NUL j = buf j := by
  unfold setAt
  by_cases h : j = i
  · rw [if_pos h]; left; rfl
  · rw [if_neg h]; right; rfl

theorem readBody_grid_chars (st : ReadState) (buf : Row) (fp : List Char) (y x : Nat) :
    (readBody st buf fp).grid y x = NUL ∨ (readBody st buf fp).grid y x = buf x ∨
      (readBody st buf fp).grid y x = st.grid y x := by
  unfold readBody
  simp only [setRow]
  split_ifs <;> (try simp only [setAt]) <;> (try split_ifs) <;> simp

theorem readLoop_chars (content : List Char) : ∀ (fuel : Nat) (st : ReadState),
    CharsFrom content st.grid → (∀ c, c ∈ st.fp → c ∈ content) →
    CharsFrom content (readLoop fuel st).grid := by
  intro fuel
  induction fuel with
  | zero => intro st hg _; exact hg
  | succ fuel ih =>
    intro st hg hfp
    unfold readLoop
    cases hf : fgets (st.grid st.row) MAX_SIZE st.fp with
    | none => exact hg
    | some r =>
      obtain ⟨buf, fp⟩ := r
      simp only
      have hread : buf = storeString (st.grid st.row) (fgetsRead (MAX_SIZE - 1) st.fp).1 ∧
          fp = (fgetsRead (MAX_SIZE - 1) st.fp).2 := by
        unfold fgets at hf
        split at hf
        · cases hf
        · simp only [Option.some.injEq, Prod.mk.injEq] at hf
          exact ⟨hf.1.symm, hf.2.symm⟩
      have happ := fgetsRead_append (MAX_SIZE - 1) st.fp
      have hbuf : ∀ x, buf x = NUL ∨ buf x ∈ content := by
        intro x
        rw [hread.1]
        rcases storeString_chars (st.grid st.row) (fgetsRead (MAX_SIZE - 1) st.fp).1 x
          with h | h | h
        · left; exact h
        · right
          apply hfp
          have h2 : storeString (st.grid st.row) (fgetsRead (MAX_SIZE - 1) st.fp).1 x ∈
              (fgetsRead (MAX_SIZE - 1) st.fp).1 ++ (fgetsRead (MAX_SIZE - 1) st.fp).2 :=
            List.mem_append.mpr (Or.inl h)
          rwa [happ] at h2
        · rw [h]; exact hg st.row x
      have hfp' : ∀ c, c ∈ fp → c ∈ content := by
        intro c hc
        apply hfp
        rw [hread.2] at hc
        have h2 : c ∈ (fgetsRead (MAX_SIZE - 1) st.fp).1 ++ (fgetsRead (MAX_SIZE - 1) st.fp).2 :=
          List.mem_append.mpr (Or.inr hc)
        rwa [happ] at h2
      have hbody : CharsFrom content (readBody st buf fp).grid := by
        intro y x
        rcases readBody_grid_chars st buf fp y x with h | h | h
        · left; exact h
        · rw [h]; exact hbuf x
        · rw [h]; exact hg y x
      by_cases hr : (readBody st buf fp).row ≥ MAX_SIZE
      · rw [if_pos hr]; exact hbody
      · rw [if_neg hr]
        exact ih (readBody st buf fp) hbody (by rw [readBody_fp]; exact hfp')

theorem readMaze_chars (content : List Char) : CharsFrom content (readMaze content).grid :=
  readLoop_chars content MAX_SIZE _ (fun _ _ => Or.inl rfl) (fun _ h => h)

/-! ## The search for the start marker -/

theorem findStartCol_some (g : Grid) (y : Nat) :
    ∀ (k x0 x : Nat), findStartCol g y k x0 = some x →
      x0 ≤ x ∧ x < x0 + k ∧ g y x = 'S' ∧ ∀ x', x0 ≤ x' → x' < x → g y x' ≠ 'S' := by
  intro k
  induction k with
  | zero => intro x0 x h; simp [findStartCol] at h
  | succ k ih =>
    intro x0 x h
    unfold findStartCol at h
    by_cases hc : g y x0 = 'S'
    · rw [if_pos hc] at h
      cases h
      exact ⟨le_refl _, by omega, hc, fun x' h1 h2 => by omega⟩
    · rw [if_neg hc] at h
      obtain ⟨h1, h2, h3, h4⟩ := ih (x0 + 1) x h
      refine ⟨by omega, by omega, h3, ?_⟩
      intro x' hx0 hx
      by_cases he : x' = x0
      · rw [he]; exact hc
      · exact h4 x' (by omega) hx

theorem findStartCol_none (g : Grid) (y : Nat) :
    ∀ (k x0 : Nat), findStartCol g y k x0 = none →
      ∀ x', x0 ≤ x' → x' < x0 + k → g y x' ≠ 'S' := by
  intro k
  induction k with
  | zero => intro x0 _ x' h1 h2; omega
  | succ k ih =>
    intro x0 h x' h1 h2
    unfold findStartCol at h
    by_cases hc : g y x0 = 'S'
    · rw [if_pos hc] at h; cases h
    · rw [if_neg hc] at h
      by_cases he : x' = x0
      · rw [he]; exact hc
      · exact ih (x0 + 1) h x' (by omega) (by omega)

theorem findStartCol_of_cell (g : Grid) (y : Nat) :
    ∀ (k x0 x : Nat), x0 ≤ x → x < x0 + k → g y x = 'S' →
      ∃ x1, findStartCol g y k x0 = some x1 := by
  intro k x0 x h1 h2 h3
  cases hf : findStartCol g y k x0 with
  | some x1 => exact ⟨x1, rfl⟩
  | none => exact absurd h3 (findStartCol_none g y k x0 hf x h1 h2)

theorem findStart_some (g : Grid) (width : Nat) :
    ∀ (k y0 y x : Nat), findStart g width k y0 = some (y, x) →
      y0 ≤ y ∧ y < y0 + k ∧ x < width ∧ g y x = 'S' ∧
        (∀ y' x', y0 ≤ y' → y' < y → x' < width → g y' x' ≠ 'S') ∧
        (∀ x', x' < x → g y x' ≠ 'S') := by
  intro k
  induction k with
  | zero => intro y0 y x h; simp [findStart] at h
  | succ k ih =>
    intro y0 y x h
    unfold findStart at h
    cases hc : findStartCol g y0 width 0 with
    | some x1 =>
      rw [hc] at h
      simp only [Option.some.injEq, Prod.mk.injEq] at h
      obtain ⟨hy, hx⟩ := h
      subst hy; subst hx
      obtain ⟨_, h2, h3, h4⟩ := findStartCol_some g y0 width 0 x1 hc
      exact ⟨le_refl _, by omega, by omega, h3, fun y' x' h5 h6 _ => by omega,
        fun x' hx' => h4 x' (Nat.zero_le _) hx'⟩
    | none =>
      rw [hc] at h
      obtain ⟨h1, h2, h3, h4, h5, h6⟩ := ih (y0 + 1) y x h
      refine ⟨by omega, by omega, h3, h4, ?_, h6⟩
      intro y' x' hy0 hy hx'
      by_cases he : y' = y0
      · rw [he]; exact findStartCol_none g y0 width 0 hc x' (Nat.zero_le _) (by omega)
      · exact h5 y' x' (by omega) hy hx'

theorem findStart_none (g : Grid) (width : Nat) :
    ∀ (k y0 : Nat), findStart g width k y0 = none →
      ∀ y' x', y0 ≤ y' → y' < y0 + k → x' < width → g y' x' ≠ 'S' := by
  intro k
  induction k with
  | zero => intro y0 _ y' x' h1 h2; omega
  | succ k ih =>
    intro y0 h y' x' h1 h2 h3
    unfold findStart at h
    cases hc : findStartCol g y0 width 0 with
    | some x1 => rw [hc] at h; cases h
    | none =>
      rw [hc] at h
      by_cases he : y' = y0
      · rw [he]; exact findStartCol_none g y0 width 0 hc x' (Nat.zero_le _) (by omega)
      · exact ih (y0 + 1) h y' x' (by omega) (by omega) h3

theorem findStart_of_cell (g : Grid) (width k y0 y x : Nat)
    (h1 : y0 ≤ y) (h2 : y < y0 + k) (h3 : x < width) (h4 : g y x = 'S') :
    ∃ p, findStart g width k y0 = some p := by
  cases hf : findStart g width k y0 with
  | some p => exact ⟨p, rfl⟩
  | none => exact absurd h4 (findStart_none g width k y0 hf y x h1 h2 h3)

/-! ## The shape of `loadMaze` -/

theorem loadMaze_ok (content : List Char) (m : Maze) (h : loadMaze content = .ok m) :
    (5 ≤ (readMaze content).row ∧ (readMaze content).row ≤ 100) ∧
    (5 ≤ strlen ((readMaze content).grid 0) ∧ strlen ((readMaze content).grid 0) ≤ 100) ∧
    ∃ y x, findStart (readMaze content).grid (strlen ((readMaze content).grid 0))
        (readMaze content).row 0 = some (y, x) ∧
      m = { grid := (readMaze content).grid
            width := strlen ((readMaze content).grid 0)
            height := (readMaze content).row
            playerX := x, playerY := y } := by
  unfold loadMaze at h
  simp only at h
  split at h
  · cases h
  · rename_i hdim
    split at h
    · rename_i y x hfind
      refine ⟨by omega, by omega, y, x, hfind, ?_⟩
      cases h
      rfl
    · cases h

theorem loadMaze_invalidDimensions (content : List Char)
    (h : (readMaze content).row < 5 ∨ (readMaze content).row > 100 ∨
      strlen ((readMaze content).grid 0) < 5 ∨ strlen ((readMaze content).grid 0) > 100) :
    loadMaze content = .error .InvalidDimensions := by
  unfold loadMaze
  simp only
  rw [if_pos h]

theorem loadMaze_missingStart (content : List Char)
    (hdim : ¬ ((readMaze content).row < 5 ∨ (readMaze content).row > 100 ∨
      strlen ((readMaze content).grid 0) < 5 ∨ strlen ((readMaze content).grid 0) > 100))
    (h : findStart (readMaze content).grid (strlen ((readMaze content).grid 0))
        (readMaze content).row 0 = none) :
    loadMaze content = .error .MissingStart := by
  unfold loadMaze
  simp only
  rw [if_neg hdim, h]

theorem loadMaze_found (content : List Char) (y x : Nat)
    (hdim : ¬ ((readMaze content).row < 5 ∨ (readMaze content).row > 100 ∨
      strlen ((readMaze content).grid 0) < 5 ∨ strlen ((readMaze content).grid 0) > 100))
    (h : findStart (readMaze content).grid (strlen ((readMaze content).grid 0))
        (readMaze content).row 0 = some (y, x)) :
    loadMaze content = .ok
      { grid := (readMaze content).grid
        width := strlen ((readMaze content).grid 0)
        height := (readMaze content).row
        playerX := x, playerY := y } := by
  unfold loadMaze
  simp only
  rw [if_neg hdim, h]

/-! ## Movement: `isValidMove` and `movePlayer` -/

theorem isValidMove_eq_true (maze : Maze) (newX newY : Int) :
    isValidMove maze newX newY = true ↔
      0 ≤ newX ∧ newX < maze.width ∧ 0 ≤ newY ∧ newY < maze.height ∧
        maze.cell newX newY ≠ '#' := by
  unfold isValidMove
  by_cases hb : newX < 0 ∨ newX ≥ maze.width ∨ newY < 0 ∨ newY ≥ maze.height
  · rw [if_pos hb]
    constructor
    · intro h; cases h
    · rintro ⟨h1, h2, h3, h4, _⟩
      rcases hb with h | h | h | h <;> omega
  · rw [if_neg hb]
    have hb1 : 0 ≤ newX ∧ newX < maze.width ∧ 0 ≤ newY ∧ newY < maze.height := by
      refine ⟨?_, ?_, ?_, ?_⟩ <;> (by_contra hc; exact hb (by omega))
    by_cases hw : maze.cell newX newY = '#'
    · rw [if_pos hw]
      constructor
      · intro h; cases h
      · rintro ⟨_, _, _, _, h5⟩; exact absurd hw h5
    · rw [if_neg hw]
      exact ⟨fun _ => ⟨hb1.1, hb1.2.1, hb1.2.2.1, hb1.2.2.2, hw⟩, fun _ => rfl⟩

theorem movePlayer_of_delta (maze : Maze) (direction : Char) (dx dy : Int)
    (h : moveDelta direction = some (dx, dy)) :
    movePlayer maze direction =
      if isValidMove maze (maze.playerX + dx) (maze.playerY + dy) then
        { maze with playerX := maze.playerX + dx, playerY := maze.playerY + dy }
      else maze := by
  unfold movePlayer
  rw [h]

theorem movePlayer_of_none (maze : Maze) (direction : Char)
    (h : moveDelta direction = none) : movePlayer maze direction = maze := by
  unfold movePlayer
  rw [h]

/-- C3: `isValidMove maze newX newY` is true exactly when
`0 <= newX < width`, `0 <= newY < height` and `grid[newY][newX] != '#'`. -/
theorem isValidMove_iff (maze : Maze) (newX newY : Int) :
    isValidMove maze newX newY = true ↔
      (0 ≤ newX ∧ newX < maze.width) ∧ (0 ≤ newY ∧ newY < maze.height) ∧
        maze.grid newY.toNat newX.toNat ≠ '#' := by
  rw [isValidMove_eq_true]
  unfold Maze.cell
  tauto

theorem moveDelta_of_target (maze : Maze) (direction : Char) (tx ty : Int)
    (hdir : ((direction = 'W' ∨ direction = 'w') ∧ tx = maze.playerX ∧ ty = maze.playerY - 1) ∨
      ((direction = 'S' ∨ direction = 's') ∧ tx = maze.playerX ∧ ty = maze.playerY + 1) ∨
      ((direction = 'A' ∨ direction = 'a') ∧ tx = maze.playerX - 1 ∧ ty = maze.playerY) ∨
      ((direction = 'D' ∨ direction = 'd') ∧ tx = maze.playerX + 1 ∧ ty = maze.playerY)) :
    ∃ dx dy, moveDelta direction = some (dx, dy) ∧
      maze.playerX + dx = tx ∧ maze.playerY + dy = ty := by
  rcases hdir with ⟨hd, hx, hy⟩ | ⟨hd, hx, hy⟩ | ⟨hd, hx, hy⟩ | ⟨hd, hx, hy⟩
  · refine ⟨0, -1, ?_, by omega, by omega⟩
    rcases hd with hd | hd <;> subst hd <;> decide
  · refine ⟨0, 1, ?_, by omega, by omega⟩
    rcases hd with hd | hd <;> subst hd <;> decide
  · refine ⟨-1, 0, ?_, by omega, by omega⟩
    rcases hd with hd | hd <;> subst hd <;> decide
  · refine ⟨1, 0, ?_, by omega, by omega⟩
    rcases hd with hd | hd <;> subst hd <;> decide

/-- C2: when the target cell `(tx, ty)` of a movement character (one row up
for W/w, one row down for S/s, one column left for A/a, one column right for
D/d) is out of bounds or holds `'#'`, `movePlayer` leaves `playerX` and
`playerY` as they were. -/
theorem movePlayer_blocked (maze : Maze) (direction : Char) (tx ty : Int)
    (hdir : ((direction = 'W' ∨ direction = 'w') ∧ tx = maze.playerX ∧ ty = maze.playerY - 1) ∨
      ((direction = 'S' ∨ direction = 's') ∧ tx = maze.playerX ∧ ty = maze.playerY + 1) ∨
      ((direction = 'A' ∨ direction = 'a') ∧ tx = maze.playerX - 1 ∧ ty = maze.playerY) ∨
      ((direction = 'D' ∨ direction = 'd') ∧ tx = maze.playerX + 1 ∧ ty = maze.playerY))
    (hblocked : (tx < 0 ∨ maze.width ≤ tx ∨ ty < 0 ∨ maze.height ≤ ty) ∨
      maze.grid ty.toNat tx.toNat = '#') :
    (movePlayer maze direction).playerX = maze.playerX ∧
      (movePlayer maze direction).playerY = maze.playerY := by
  obtain ⟨dx, dy, hdelta, hx, hy⟩ := moveDelta_of_target maze direction tx ty hdir
  have hinvalid : isValidMove maze tx ty = false := by
    cases hv : isValidMove maze tx ty with
    | false => rfl
    | true =>
      obtain ⟨hx0, hx1, hy0, hy1, hcell⟩ := (isValidMove_eq_true maze tx ty).mp hv
      rcases hblocked with (h | h | h | h) | h
      · omega
      · omega
      · omega
      · omega
      · exact absurd h hcell
  rw [movePlayer_of_delta maze direction dx dy hdelta, hx, hy, hinvalid]
  exact ⟨rfl, rfl⟩

/-- The scenario of C2: `W` from row 1, column 1 of the example rows is
blocked by the wall in row 0 and the player stays at `(1, 1)`. -/
theorem movePlayer_blocked_witness :
    scenarioMaze.grid (Int.toNat 0) (Int.toNat 1) = '#' ∧
      (movePlayer scenarioMaze 'W').playerX = 1 ∧
      (movePlayer scenarioMaze 'W').playerY = 1 :=
  ⟨by decide,
    movePlayer_blocked scenarioMaze 'W' 1 0 (Or.inl ⟨Or.inl rfl, rfl, rfl⟩)
      (Or.inr (by decide))⟩

/-- C4: when the target cell of a movement character passes `isValidMove`,
`movePlayer` puts the player exactly there: W/w one row up, S/s one row
down, A/a one column left, D/d one column right, the other coordinate as it
was.  On the rows `"#####"`, `"#S.E#"`, `"#####"` from row 1, column 1, `D`
leads to column 2 and a second `D` to column 3, the row staying 1. -/
theorem movePlayer_moves :
    (∀ (maze : Maze) (direction : Char) (tx ty : Int),
      (((direction = 'W' ∨ direction = 'w') ∧ tx = maze.playerX ∧ ty = maze.playerY - 1) ∨
        ((direction = 'S' ∨ direction = 's') ∧ tx = maze.playerX ∧ ty = maze.playerY + 1) ∨
        ((direction = 'A' ∨ direction = 'a') ∧ tx = maze.playerX - 1 ∧ ty = maze.playerY) ∨
        ((direction = 'D' ∨ direction = 'd') ∧ tx = maze.playerX + 1 ∧ ty = maze.playerY)) →
      isValidMove maze tx ty = true →
      (movePlayer maze direction).playerX = tx ∧ (movePlayer maze direction).playerY = ty) ∧
    ((movePlayer scenarioMaze 'D').playerX = 2 ∧ (movePlayer scenarioMaze 'D').playerY = 1) ∧
    ((movePlayer (movePlayer scenarioMaze 'D') 'D').playerX = 3 ∧
      (movePlayer (movePlayer scenarioMaze 'D') 'D').playerY = 1) := by
  refine ⟨?_, ⟨by decide, by decide⟩, ⟨by decide, by decide⟩⟩
  intro maze direction tx ty hdir hvalid
  obtain ⟨dx, dy, hdelta, hx, hy⟩ := moveDelta_of_target maze direction tx ty hdir
  rw [movePlayer_of_delta maze direction dx dy hdelta, hx, hy, hvalid]
  exact ⟨rfl, rfl⟩

/-- The general part of C4 at the scenario: `A` from row 1, column 2 (where
the first `D` leads) goes back to column 1. -/
theorem movePlayer_moves_witness :
    isValidMove (movePlayer scenarioMaze 'D') 1 1 = true ∧
      (movePlayer (movePlayer scenarioMaze 'D') 'a').playerX = 1 ∧
      (movePlayer (movePlayer scenarioMaze 'D') 'a').playerY = 1 :=
  ⟨by decide,
    movePlayer_moves.1 (movePlayer scenarioMaze 'D') 'a' 1 1
      (Or.inr (Or.inr (Or.inl ⟨Or.inr rfl, by decide, by decide⟩))) (by decide)⟩

/-! ## The player's cell -/

theorem movePlayer_grid (maze : Maze) (direction : Char) :
    (movePlayer maze direction).grid = maze.grid := by
  cases hd : moveDelta direction with
  | none => rw [movePlayer_of_none maze direction hd]
  | some d =>
    obtain ⟨dx, dy⟩ := d
    rw [movePlayer_of_delta maze direction dx dy hd]
    split <;> rfl

theorem movePlayer_not_wall (maze : Maze) (direction : Char)
    (h : maze.cell maze.playerX maze.playerY ≠ '#') :
    (movePlayer maze direction).cell (movePlayer maze direction).playerX
      (movePlayer maze direction).playerY ≠ '#' := by
  cases hd : moveDelta direction with
  | none => rw [movePlayer_of_none maze direction hd]; exact h
  | some d =>
    obtain ⟨dx, dy⟩ := d
    rw [movePlayer_of_delta maze direction dx dy hd]
    cases hv : isValidMove maze (maze.playerX + dx) (maze.playerY + dy) with
    | false => exact h
    | true => exact ((isValidMove_eq_true maze _ _).mp hv).2.2.2.2

theorem gameLoop_not_wall : ∀ (cmds : List Char) (maze : Maze),
    maze.cell maze.playerX maze.playerY ≠ '#' →
    (gameLoop maze cmds).1.cell (gameLoop maze cmds).1.playerX
      (gameLoop maze cmds).1.playerY ≠ '#' := by
  intro cmds
  induction cmds with
  | nil => intro maze h; exact h
  | cons command rest ih =>
    intro maze h
    unfold gameLoop
    split_ifs
    · exact h
    · exact ih maze h
    · exact movePlayer_not_wall maze command h
    · exact ih _ (movePlayer_not_wall maze command h)

theorem loadMaze_start_cell (content : List Char) (m : Maze) (h : loadMaze content = .ok m) :
    ∃ y x : Nat, m.playerY = y ∧ m.playerX = x ∧ (y : Int) < m.height ∧ (x : Int) < m.width ∧
      m.grid y x = 'S' ∧
      (∀ y' x' : Nat, y' < y → (x' : Int) < m.width → m.grid y' x' ≠ 'S') ∧
      (∀ x' : Nat, x' < x → m.grid y x' ≠ 'S') := by
  obtain ⟨_, _, y, x, hfind, hm⟩ := loadMaze_ok content m h
  obtain ⟨_, h2, h3, h4, h5, h6⟩ := findStart_some _ _ _ 0 y x hfind
  subst hm
  refine ⟨y, x, rfl, rfl, ?_, ?_, h4, ?_, h6⟩
  · show (y : Int) < ((readMaze content).row : Int)
    omega
  · show (x : Int) < (strlen ((readMaze content).grid 0) : Int)
    omega
  · intro y' x' hy hx
    have hx' : (x' : Int) < (strlen ((readMaze content).grid 0) : Int) := hx
    exact h5 y' x' (Nat.zero_le _) hy (by omega)

/-! ## Claims about the player's cell and the load -/

/-- C1: after a successful `loadMaze`, and after every command of any finite
command sequence handed to the game loop, the player's cell is not a wall:
`grid[playerY][playerX] != '#'`.  The state after the first `n` commands is
the state in which the loop stands on the input `cmds.take n`. -/
theorem player_never_on_wall (content : List Char) (m : Maze) (cmds : List Char)
    (h : loadMaze content = .ok m) :
    m.grid m.playerY.toNat m.playerX.toNat ≠ '#' ∧
    ∀ n : Nat,
      (gameLoop m (cmds.take n)).1.grid (gameLoop m (cmds.take n)).1.playerY.toNat
        (gameLoop m (cmds.take n)).1.playerX.toNat ≠ '#' := by
  have hstart : m.cell m.playerX m.playerY ≠ '#' := by
    obtain ⟨y, x, hy, hx, _, _, hS, _⟩ := loadMaze_start_cell content m h
    unfold Maze.cell
    rw [hy, hx, Int.toNat_ofNat, Int.toNat_ofNat, hS]
    decide
  exact ⟨hstart, fun n => gameLoop_not_wall (cmds.take n) m hstart⟩

/-- C1 on the five-row file, with the commands `D`, `W`, `a`, `x`, `S`. -/
theorem player_never_on_wall_witness :
    loadMaze fiveRowFile = .ok fiveRowMaze ∧
    fiveRowMaze.grid fiveRowMaze.playerY.toNat fiveRowMaze.playerX.toNat ≠ '#' ∧
    ∀ n : Nat,
      (gameLoop fiveRowMaze (['D', 'W', 'a', 'x', 'S'].take n)).1.grid
        (gameLoop fiveRowMaze (['D', 'W', 'a', 'x', 'S'].take n)).1.playerY.toNat
        (gameLoop fiveRowMaze (['D', 'W', 'a', 'x', 'S'].take n)).1.playerX.toNat ≠ '#' :=
  ⟨rfl, player_never_on_wall fiveRowFile fiveRowMaze ['D', 'W', 'a', 'x', 'S'] rfl⟩

/-- C5: if the number of rows read or the length of the first row is outside
`[5, 100]`, `loadMaze` fails (at the dimension check); and every maze that
`loadMaze` returns has `5 <= height <= 100` and `5 <= width <= 100`, the
height being the number of rows read and the width the length of row 0. -/
theorem loadMaze_dimensions (content : List Char) :
    (((readMaze content).row < 5 ∨ (readMaze content).row > 100 ∨
        strlen ((readMaze content).grid 0) < 5 ∨ strlen ((readMaze content).grid 0) > 100) →
      loadMaze content = .error .InvalidDimensions) ∧
    (∀ m : Maze, loadMaze content = .ok m →
      m.height = (readMaze content).row ∧ m.width = strlen ((readMaze content).grid 0) ∧
      (5 ≤ m.height ∧ m.height ≤ 100) ∧ (5 ≤ m.width ∧ m.width ≤ 100)) := by
  refine ⟨loadMaze_invalidDimensions content, ?_⟩
  intro m h
  obtain ⟨⟨h1, h2⟩, ⟨h3, h4⟩, y, x, _, hm⟩ := loadMaze_ok content m h
  subst hm
  refine ⟨rfl, rfl, ⟨?_, ?_⟩, ⟨?_, ?_⟩⟩
  · show (5 : Int) ≤ ((readMaze content).row : Int)
    omega
  · show ((readMaze content).row : Int) ≤ 100
    omega
  · show (5 : Int) ≤ (strlen ((readMaze content).grid 0) : Int)
    omega
  · show (strlen ((readMaze content).grid 0) : Int) ≤ 100
    omega

/-- C5 on concrete files: five rows of width 3 are rejected, and the maze
loaded from the five-row file has height 5 and width 5. -/
theorem loadMaze_dimensions_witness :
    (strlen ((readMaze narrowFile).grid 0) < 5 ∧
      loadMaze narrowFile = .error .InvalidDimensions) ∧
    (loadMaze fiveRowFile = .ok fiveRowMaze ∧
      fiveRowMaze.height = (readMaze fiveRowFile).row ∧
      fiveRowMaze.width = strlen ((readMaze fiveRowFile).grid 0) ∧
      (5 ≤ fiveRowMaze.height ∧ fiveRowMaze.height ≤ 100) ∧
      (5 ≤ fiveRowMaze.width ∧ fiveRowMaze.width ≤ 100)) :=
  ⟨⟨by decide, (loadMaze_dimensions narrowFile).1 (Or.inr (Or.inr (Or.inl (by decide))))⟩,
    ⟨rfl, (loadMaze_dimensions fiveRowFile).2 fiveRowMaze rfl⟩⟩

/-- C6: a file whose content holds no `'S'` is never loaded: `loadMaze`
returns no maze but fails, at the dimension check or, when the dimensions
are in range, for the missing start marker. -/
theorem loadMaze_no_start (content : List Char) (h : 'S' ∉ content) :
    (∀ m : Maze, loadMaze content ≠ .ok m) ∧
    (loadMaze content = .error .InvalidDimensions ∨
      loadMaze content = .error .MissingStart) := by
  have hnone : ∀ y x, (readMaze content).grid y x ≠ 'S' := by
    intro y x hS
    rcases readMaze_chars content y x with h0 | hmem
    · rw [hS] at h0
      exact absurd h0 (by decide)
    · rw [hS] at hmem
      exact h hmem
  have hcases : loadMaze content = .error .InvalidDimensions ∨
      loadMaze content = .error .MissingStart := by
    by_cases hdim : (readMaze content).row < 5 ∨ (readMaze content).row > 100 ∨
        strlen ((readMaze content).grid 0) < 5 ∨ strlen ((readMaze content).grid 0) > 100
    · exact Or.inl (loadMaze_invalidDimensions content hdim)
    · right
      apply loadMaze_missingStart content hdim
      cases hf : findStart (readMaze content).grid (strlen ((readMaze content).grid 0))
          (readMaze content).row 0 with
      | none => rfl
      | some p =>
        obtain ⟨y, x⟩ := p
        exact absurd (findStart_some _ _ _ 0 y x hf).2.2.2.1 (hnone y x)
  refine ⟨?_, hcases⟩
  intro m hm
  rcases hcases with h1 | h1 <;> rw [h1] at hm <;> cases hm

/-- C6 on a five-row file of width 5 without `'S'`. -/
theorem loadMaze_no_start_witness :
    'S' ∉ noStartFile ∧
    (∀ m : Maze, loadMaze noStartFile ≠ .ok m) ∧
    (loadMaze noStartFile = .error .InvalidDimensions ∨
      loadMaze noStartFile = .error .MissingStart) :=
  ⟨by decide, loadMaze_no_start noStartFile (by decide)⟩

/-- C7 as stated fails: `lateStartFile` is loaded with the player in row 2,
although the loaded row 1 above it (a row below the height, of length 6)
holds an `'S'` at column 5 of its string. -/
theorem first_start_counterexample :
    loadMaze lateStartFile = .ok lateStartMaze ∧
    ¬ (∀ y x : Nat, (y : Int) < lateStartMaze.playerY → x < strlen (lateStartMaze.grid y) →
        lateStartMaze.grid y x ≠ 'S') := by
  refine ⟨rfl, ?_⟩
  intro hall
  exact hall 1 5 (by decide) (by decide) (by decide)

/-- C7, amended: after a successful `loadMaze` the player stands on an `'S'`
inside the maze, and it is the first `'S'` in row-major order among the
cells of the first `width` columns: no row above `playerY` holds an `'S'` at
a column below `width`, and row `playerY` holds none left of `playerX`. -/
theorem first_start_within_width (content : List Char) (m : Maze)
    (h : loadMaze content = .ok m) :
    (0 ≤ m.playerY ∧ m.playerY < m.height) ∧ (0 ≤ m.playerX ∧ m.playerX < m.width) ∧
    m.grid m.playerY.toNat m.playerX.toNat = 'S' ∧
    (∀ y x : Nat, (y : Int) < m.playerY → (x : Int) < m.width → m.grid y x ≠ 'S') ∧
    (∀ x : Nat, (x : Int) < m.playerX → m.grid m.playerY.toNat x ≠ 'S') := by
  obtain ⟨y, x, hy, hx, hyh, hxw, hS, habove, hleft⟩ := loadMaze_start_cell content m h
  rw [hy, hx, Int.toNat_ofNat, Int.toNat_ofNat]
  refine ⟨⟨by omega, hyh⟩, ⟨by omega, hxw⟩, hS, ?_, ?_⟩
  · intro y' x' hy' hx'
    exact habove y' x' (by omega) hx'
  · intro x' hx'
    exact hleft x' (by omega)

/-- The amended C7 on `lateStartFile`: the player starts at row 2, column 1. -/
theorem first_start_within_width_witness :
    loadMaze lateStartFile = .ok lateStartMaze ∧
    (0 ≤ lateStartMaze.playerY ∧ lateStartMaze.playerY < lateStartMaze.height) ∧
    (0 ≤ lateStartMaze.playerX ∧ lateStartMaze.playerX < lateStartMaze.width) ∧
    lateStartMaze.grid lateStartMaze.playerY.toNat lateStartMaze.playerX.toNat = 'S' ∧
    (∀ y x : Nat, (y : Int) < lateStartMaze.playerY → (x : Int) < lateStartMaze.width →
      lateStartMaze.grid y x ≠ 'S') ∧
    (∀ x : Nat, (x : Int) < lateStartMaze.playerX →
      lateStartMaze.grid lateStartMaze.playerY.toNat x ≠ 'S') :=
  ⟨rfl, first_start_within_width lateStartFile lateStartMaze rfl⟩

/-- C9 at a file of five lines whose first line has 100 characters: the read
loop produces six rows.  Row 0 holds the first 99 characters of the long
line, row 1 holds its last character, and the second line `"#S.E#"` lands in
row 2, where the player then starts; nothing of the long line is dropped. -/
theorem long_line_is_split :
    (readMaze longLineFile).row = 6 ∧
    rowString ((readMaze longLineFile).grid 0) = List.replicate 99 '#' ∧
    rowString ((readMaze longLineFile).grid 1) = ['#'] ∧
    rowString ((readMaze longLineFile).grid 2) = "#S.E#".toList ∧
    ∃ m : Maze, loadMaze longLineFile = .ok m ∧ m.height = 6 ∧ m.width = 99 ∧
      m.playerY = 2 ∧ m.playerX = 1 :=
  ⟨by decide, by decide, by decide, by decide, _,
    loadMaze_found longLineFile 2 1 (by decide) (by decide),
    by decide, by decide, rfl, rfl⟩

/-- C10 as stated fails: `twoStartFile` is loaded successfully although its
loaded rows hold two `'S'` (row 1, columns 1 and 3, both counted by
`startCount`), so the loaded grid does not contain exactly one `'S'`. -/
theorem single_start_counterexample :
    loadMaze twoStartFile = .ok twoStartMaze ∧
    (readMaze twoStartFile).startCount = 2 ∧
    twoStartMaze.grid 1 1 = 'S' ∧ twoStartMaze.grid 1 3 = 'S' ∧
    ¬ (∃! p : Nat × Nat, (p.1 : Int) < twoStartMaze.height ∧ (p.2 : Int) < twoStartMaze.width ∧
        twoStartMaze.grid p.1 p.2 = 'S') := by
  refine ⟨rfl, by decide, by decide, by decide, ?_⟩
  rintro ⟨p, _, huniq⟩
  have h1 := huniq (1, 1) ⟨by decide, by decide, by decide⟩
  have h3 := huniq (1, 3) ⟨by decide, by decide, by decide⟩
  rw [← h3] at h1
  exact absurd h1 (by decide)

/-- C10, amended: a successfully loaded grid contains at least one `'S'`
within its `height` rows and `width` columns, and the player starts on one;
a second `'S'` does not make the load fail (some file with two `'S'` in its
loaded rows is loaded successfully). -/
theorem at_least_one_start :
    (∀ (content : List Char) (m : Maze), loadMaze content = .ok m →
      (∃ y x : Nat, (y : Int) < m.height ∧ (x : Int) < m.width ∧ m.grid y x = 'S') ∧
      m.grid m.playerY.toNat m.playerX.toNat = 'S') ∧
    (∃ (content : List Char) (m : Maze), loadMaze content = .ok m ∧
      ∃ p q : Nat × Nat, p ≠ q ∧
        ((p.1 : Int) < m.height ∧ (p.2 : Int) < m.width ∧ m.grid p.1 p.2 = 'S') ∧
        ((q.1 : Int) < m.height ∧ (q.2 : Int) < m.width ∧ m.grid q.1 q.2 = 'S')) := by
  constructor
  · intro content m h
    obtain ⟨y, x, hy, hx, hyh, hxw, hS, _⟩ := loadMaze_start_cell content m h
    refine ⟨⟨y, x, hyh, hxw, hS⟩, ?_⟩
    rw [hy, hx, Int.toNat_ofNat, Int.toNat_ofNat]
    exact hS
  · exact ⟨twoStartFile, twoStartMaze, rfl, (1, 1), (1, 3), by decide,
      ⟨by decide, by decide, by decide⟩, ⟨by decide, by decide, by decide⟩⟩

/-- The general part of the amended C10 on the five-row file. -/
theorem at_least_one_start_witness :
    loadMaze fiveRowFile = .ok fiveRowMaze ∧
    (∃ y x : Nat, (y : Int) < fiveRowMaze.height ∧ (x : Int) < fiveRowMaze.width ∧
      fiveRowMaze.grid y x = 'S') ∧
    fiveRowMaze.grid fiveRowMaze.playerY.toNat fiveRowMaze.playerX.toNat = 'S' :=
  ⟨rfl, at_least_one_start.1 fiveRowFile fiveRowMaze rfl⟩

/-! ## Frame of `movePlayer`, bounds of the player -/

theorem moveDelta_eq_none (direction : Char)
    (h : ¬ (direction = 'W' ∨ direction = 'w' ∨ direction = 'S' ∨ direction = 's' ∨
      direction = 'A' ∨ direction = 'a' ∨ direction = 'D' ∨ direction = 'd')) :
    moveDelta direction = none := by
  unfold moveDelta
  rw [if_neg (by tauto), if_neg (by tauto), if_neg (by tauto), if_neg (by tauto)]

theorem movePlayer_width (maze : Maze) (direction : Char) :
    (movePlayer maze direction).width = maze.width := by
  cases hd : moveDelta direction with
  | none => rw [movePlayer_of_none maze direction hd]
  | some d =>
    obtain ⟨dx, dy⟩ := d
    rw [movePlayer_of_delta maze direction dx dy hd]
    split <;> rfl

theorem movePlayer_height (maze : Maze) (direction : Char) :
    (movePlayer maze direction).height = maze.height := by
  cases hd : moveDelta direction with
  | none => rw [movePlayer_of_none maze direction hd]
  | some d =>
    obtain ⟨dx, dy⟩ := d
    rw [movePlayer_of_delta maze direction dx dy hd]
    split <;> rfl

theorem movePlayer_inBounds (maze : Maze) (direction : Char) (h : InBounds maze) :
    InBounds (movePlayer maze direction) := by
  cases hd : moveDelta direction with
  | none => rw [movePlayer_of_none maze direction hd]; exact h
  | some d =>
    obtain ⟨dx, dy⟩ := d
    rw [movePlayer_of_delta maze direction dx dy hd]
    cases hv : isValidMove maze (maze.playerX + dx) (maze.playerY + dy) with
    | false => exact h
    | true =>
      obtain ⟨h1, h2, h3, h4, _⟩ := (isValidMove_eq_true maze _ _).mp hv
      exact ⟨⟨h1, h2⟩, ⟨h3, h4⟩⟩

theorem gameLoop_dims : ∀ (cmds : List Char) (maze : Maze),
    (gameLoop maze cmds).1.width = maze.width ∧ (gameLoop maze cmds).1.height = maze.height ∧
      (gameLoop maze cmds).1.grid = maze.grid := by
  intro cmds
  induction cmds with
  | nil => intro maze; exact ⟨rfl, rfl, rfl⟩
  | cons command rest ih =>
    intro maze
    unfold gameLoop
    split_ifs
    · exact ⟨rfl, rfl, rfl⟩
    · exact ih maze
    · exact ⟨movePlayer_width maze command, movePlayer_height maze command,
        movePlayer_grid maze command⟩
    · obtain ⟨h1, h2, h3⟩ := ih (movePlayer maze command)
      exact ⟨h1.trans (movePlayer_width maze command),
        h2.trans (movePlayer_height maze command), h3.trans (movePlayer_grid maze command)⟩

theorem gameLoop_inBounds : ∀ (cmds : List Char) (maze : Maze), InBounds maze →
    InBounds (gameLoop maze cmds).1 := by
  intro cmds
  induction cmds with
  | nil => intro maze h; exact h
  | cons command rest ih =>
    intro maze h
    unfold gameLoop
    split_ifs
    · exact h
    · exact ih maze h
    · exact movePlayer_inBounds maze command h
    · exact ih _ (movePlayer_inBounds maze command h)

theorem loadMaze_inBounds (content : List Char) (m : Maze) (h : loadMaze content = .ok m) :
    InBounds m ∧ m.width ≤ 100 ∧ m.height ≤ 100 := by
  obtain ⟨y, x, hy, hx, hyh, hxw, _⟩ := loadMaze_start_cell content m h
  obtain ⟨⟨_, h2⟩, ⟨_, h4⟩, _, _, _, hm⟩ := loadMaze_ok content m h
  refine ⟨⟨⟨by omega, by omega⟩, ⟨by omega, by omega⟩⟩, ?_, ?_⟩
  · subst hm
    show (strlen ((readMaze content).grid 0) : Int) ≤ 100
    omega
  · subst hm
    show ((readMaze content).row : Int) ≤ 100
    omega

/-- C11: after a successful `loadMaze` and after every command of any finite
command sequence, `0 <= playerX < width` and `0 <= playerY < height`; as
`width` and `height` are at most `MAX_SIZE = 100`, the index
`grid[playerY][playerX]` of `isAtExit` lies inside the 100 x 100 grid.  The
state after the first `n` commands is the state in which the loop stands on
the input `cmds.take n`. -/
theorem player_stays_in_bounds (content : List Char) (m : Maze) (cmds : List Char)
    (h : loadMaze content = .ok m) :
    ((0 ≤ m.playerX ∧ m.playerX < m.width) ∧ (0 ≤ m.playerY ∧ m.playerY < m.height)) ∧
    ∀ n : Nat,
      ((0 ≤ (gameLoop m (cmds.take n)).1.playerX ∧
          (gameLoop m (cmds.take n)).1.playerX < (gameLoop m (cmds.take n)).1.width) ∧
        (0 ≤ (gameLoop m (cmds.take n)).1.playerY ∧
          (gameLoop m (cmds.take n)).1.playerY < (gameLoop m (cmds.take n)).1.height)) ∧
      ((gameLoop m (cmds.take n)).1.playerX.toNat < MAX_SIZE ∧
        (gameLoop m (cmds.take n)).1.playerY.toNat < MAX_SIZE) := by
  obtain ⟨hb, hw, hh⟩ := loadMaze_inBounds content m h
  refine ⟨hb, fun n => ?_⟩
  have hin := gameLoop_inBounds (cmds.take n) m hb
  obtain ⟨hw', hh', _⟩ := gameLoop_dims (cmds.take n) m
  refine ⟨hin, ?_, ?_⟩
  · have := hin.1
    show (gameLoop m (cmds.take n)).1.playerX.toNat < 100
    omega
  · have := hin.2
    show (gameLoop m (cmds.take n)).1.playerY.toNat < 100
    omega

/-- C11 on the five-row file, with the commands `A`, `D`, `D`, `S`, `z`. -/
theorem player_stays_in_bounds_witness :
    loadMaze fiveRowFile = .ok fiveRowMaze ∧
    ((0 ≤ fiveRowMaze.playerX ∧ fiveRowMaze.playerX < fiveRowMaze.width) ∧
      (0 ≤ fiveRowMaze.playerY ∧ fiveRowMaze.playerY < fiveRowMaze.height)) ∧
    ∀ n : Nat,
      ((0 ≤ (gameLoop fiveRowMaze (['A', 'D', 'D', 'S', 'z'].take n)).1.playerX ∧
          (gameLoop fiveRowMaze (['A', 'D', 'D', 'S', 'z'].take n)).1.playerX <
            (gameLoop fiveRowMaze (['A', 'D', 'D', 'S', 'z'].take n)).1.width) ∧
        (0 ≤ (gameLoop fiveRowMaze (['A', 'D', 'D', 'S', 'z'].take n)).1.playerY ∧
          (gameLoop fiveRowMaze (['A', 'D', 'D', 'S', 'z'].take n)).1.playerY <
            (gameLoop fiveRowMaze (['A', 'D', 'D', 'S', 'z'].take n)).1.height)) ∧
      ((gameLoop fiveRowMaze (['A', 'D', 'D', 'S', 'z'].take n)).1.playerX.toNat < MAX_SIZE ∧
        (gameLoop fiveRowMaze (['A', 'D', 'D', 'S', 'z'].take n)).1.playerY.toNat < MAX_SIZE) :=
  ⟨rfl, player_stays_in_bounds fiveRowFile fiveRowMaze ['A', 'D', 'D', 'S', 'z'] rfl⟩

/-- C16: `isAtExit` returns true exactly when `grid[playerY][playerX]` is
`'E'`.  Its result is the same for any two states that agree on the player's
position and on that one cell, whatever the other cells hold; its only
result is the truth value, the state is not touched. -/
theorem isAtExit_iff (maze : Maze) :
    (isAtExit maze = true ↔ maze.grid maze.playerY.toNat maze.playerX.toNat = 'E') ∧
    ∀ other : Maze, other.playerX = maze.playerX → other.playerY = maze.playerY →
      other.grid maze.playerY.toNat maze.playerX.toNat =
        maze.grid maze.playerY.toNat maze.playerX.toNat →
      isAtExit other = isAtExit maze := by
  constructor
  · unfold isAtExit Maze.cell
    exact beq_iff_eq
  · intro other hx hy hcell
    unfold isAtExit Maze.cell
    rw [hx, hy, hcell]

/-- C16 on the example rows: with the player on the exit, `isAtExit` is
true, also for the state whose grid holds nothing but that `'E'`. -/
theorem isAtExit_iff_witness :
    (isAtExit exitMaze = true ↔ exitMaze.grid exitMaze.playerY.toNat exitMaze.playerX.toNat = 'E') ∧
    isAtExit { exitMaze with grid := fun y x => if y = 1 ∧ x = 3 then 'E' else NUL } =
      isAtExit exitMaze :=
  ⟨(isAtExit_iff exitMaze).1,
    (isAtExit_iff exitMaze).2
      { exitMaze with grid := fun y x => if y = 1 ∧ x = 3 then 'E' else NUL } rfl rfl
      (by decide)⟩

/-- C17: `movePlayer` leaves `grid`, `width` and `height` as they were for
every character, and for every character other than W, w, S, s, A, a, D, d
it returns the state unchanged. -/
theorem movePlayer_frame (maze : Maze) (direction : Char) :
    ((movePlayer maze direction).grid = maze.grid ∧
      (movePlayer maze direction).width = maze.width ∧
      (movePlayer maze direction).height = maze.height) ∧
    (¬ (direction = 'W' ∨ direction = 'w' ∨ direction = 'S' ∨ direction = 's' ∨
        direction = 'A' ∨ direction = 'a' ∨ direction = 'D' ∨ direction = 'd') →
      movePlayer maze direction = maze) :=
  ⟨⟨movePlayer_grid maze direction, movePlayer_width maze direction,
      movePlayer_height maze direction⟩,
    fun h => movePlayer_of_none maze direction (moveDelta_eq_none direction h)⟩

/-- C17 on the example rows with the character `x`. -/
theorem movePlayer_frame_witness :
    ¬ ('x' = 'W' ∨ 'x' = 'w' ∨ 'x' = 'S' ∨ 'x' = 's' ∨ 'x' = 'A' ∨ 'x' = 'a' ∨
        'x' = 'D' ∨ 'x' = 'd') ∧
    movePlayer scenarioMaze 'x' = scenarioMaze :=
  ⟨by decide, (movePlayer_frame scenarioMaze 'x').2 (by decide)⟩

/-! ## `displayMap` -/

theorem displayCols_length (maze : Maze) (y : Nat) : ∀ (k x0 : Nat),
    (displayCols maze y k x0).length = k := by
  intro k
  induction k with
  | zero => intro x0; rfl
  | succ k ih => intro x0; rw [displayCols, List.length_cons, ih]

theorem displayCols_getElem? (maze : Maze) (y : Nat) : ∀ (k x0 i : Nat), i < k →
    (displayCols maze y k x0)[i]? =
      some (if (y : Int) = maze.playerY ∧ ((x0 + i : Nat) : Int) = maze.playerX then 'X'
        else maze.grid y (x0 + i)) := by
  intro k
  induction k with
  | zero => intro x0 i h; omega
  | succ k ih =>
    intro x0 i h
    rw [displayCols]
    cases i with
    | zero => rw [List.getElem?_cons_zero, Nat.add_zero]
    | succ i =>
      rw [List.getElem?_cons_succ, ih (x0 + 1) i (by omega),
        show x0 + 1 + i = x0 + (i + 1) by omega]

theorem displayRows_eq (maze : Maze) : ∀ (k y0 : Nat),
    displayRows maze k y0 =
      joinLines ((List.range k).map fun i => displayCols maze (y0 + i) maze.width.toNat 0) := by
  intro k
  induction k with
  | zero => intro y0; rfl
  | succ k ih =>
    intro y0
    rw [displayRows, ih (y0 + 1), List.range_succ_eq_map, List.map_cons, List.map_map, joinLines]
    have hfun : (fun i => displayCols maze (y0 + 1 + i) maze.width.toNat 0) =
        ((fun i => displayCols maze (y0 + i) maze.width.toNat 0) ∘ Nat.succ) := by
      funext i
      show _ = displayCols maze (y0 + (i + 1)) maze.width.toNat 0
      rw [show y0 + 1 + i = y0 + (i + 1) by omega]
    rw [hfun]
    rfl

theorem stdoutLines_line : ∀ (l rest : List Char), '\n' ∉ l →
    stdoutLines (l ++ '\n' :: rest) = l :: stdoutLines rest := by
  intro l
  induction l with
  | nil => intro rest _; rw [List.nil_append, stdoutLines, if_pos rfl]
  | cons c l ih =>
    intro rest hn
    have hc : c ≠ '\n' := fun he => hn (he ▸ List.mem_cons_self _ _)
    rw [List.cons_append, stdoutLines, if_neg hc,
      ih rest (fun hm => hn (List.mem_cons_of_mem _ hm))]

theorem stdoutLines_joinLines : ∀ (rows : List (List Char)),
    (∀ out, out ∈ rows → '\n' ∉ out) → stdoutLines (joinLines rows) = rows := by
  intro rows
  induction rows with
  | nil => intro _; rfl
  | cons l ls ih =>
    intro h
    rw [joinLines, stdoutLines_line l _ (h l (List.mem_cons_self _ _)),
      ih (fun out ho => h out (List.mem_cons_of_mem _ ho))]

/-- C14 as stated fails: `newlineCellFile` is loaded with the player in
bounds at row 1, column 1, height 5 and width 7, and the cell at row 1,
column 6 holds a newline; `displayMap` writes it as it is, so the output has
six lines, of 7, 6, 0, 7, 7 and 7 characters, not five lines of seven. -/
theorem displayMap_counterexample :
    loadMaze newlineCellFile = .ok newlineCellMaze ∧
    ((0 ≤ newlineCellMaze.playerX ∧ newlineCellMaze.playerX < newlineCellMaze.width) ∧
      (0 ≤ newlineCellMaze.playerY ∧ newlineCellMaze.playerY < newlineCellMaze.height)) ∧
    (newlineCellMaze.height = 5 ∧ newlineCellMaze.width = 7) ∧
    newlineCellMaze.grid 1 6 = '\n' ∧
    (stdoutLines (displayMap newlineCellMaze)).map List.length = [7, 6, 0, 7, 7, 7] := by
  refine ⟨rfl, by decide, by decide, by decide, by decide⟩

/-- C14, amended: `displayMap` writes, for each of the `height` rows in
order, the `width` characters of the row and then a newline; the character
for row `y`, column `x` is `'X'` when `(x, y)` is the player's position and
`grid[y][x]` otherwise.  When none of the characters written for the rows is
a newline, the output consists of exactly these `height` lines of `width`
characters.  On the example rows with the player on the start marker the
output is `#####`, `#X.E#`, `#####` (the `'E'` is shown), and with the player
on the exit it is `#####`, `#S.X#`, `#####` (the player hides the `'E'`). -/
theorem displayMap_cells :
    (∀ maze : Maze, ∃ rows : List (List Char),
      displayMap maze = joinLines rows ∧ rows.length = maze.height.toNat ∧
      (∀ y : Nat, y < maze.height.toNat → ∃ out : List Char,
        rows[y]? = some out ∧ out.length = maze.width.toNat ∧
        ∀ x : Nat, x < maze.width.toNat →
          out[x]? = some (if (x : Int) = maze.playerX ∧ (y : Int) = maze.playerY then 'X'
            else maze.grid y x)) ∧
      ((∀ out, out ∈ rows → '\n' ∉ out) → stdoutLines (displayMap maze) = rows)) ∧
    (displayMap scenarioMaze = "#####\n#X.E#\n#####\n".toList ∧
      stdoutLines (displayMap scenarioMaze) =
        ["#####".toList, "#X.E#".toList, "#####".toList]) ∧
    (displayMap exitMaze = "#####\n#S.X#\n#####\n".toList ∧
      stdoutLines (displayMap exitMaze) =
        ["#####".toList, "#S.X#".toList, "#####".toList]) := by
  refine ⟨fun maze => ⟨_, displayRows_eq maze maze.height.toNat 0, ?_, ?_, ?_⟩,
    ⟨by decide, by decide⟩, ⟨by decide, by decide⟩⟩
  · rw [List.length_map, List.length_range]
  · intro y hy
    refine ⟨displayCols maze y maze.width.toNat 0, ?_, displayCols_length maze y _ 0, ?_⟩
    · rw [List.getElem?_map, List.getElem?_range hy]
      show some (displayCols maze (0 + y) maze.width.toNat 0) = _
      rw [Nat.zero_add]
    · intro x hx
      rw [displayCols_getElem? maze y _ 0 x hx, Nat.zero_add]
      by_cases h : (y : Int) = maze.playerY ∧ (x : Int) = maze.playerX
      · rw [if_pos h, if_pos ⟨h.2, h.1⟩]
      · rw [if_neg h, if_neg (fun h' => h ⟨h'.2, h'.1⟩)]
  · intro hrows
    rw [show displayMap maze = displayRows maze maze.height.toNat 0 from rfl,
      displayRows_eq maze maze.height.toNat 0]
    exact stdoutLines_joinLines _ hrows

/-- The amended C14 on the five-row maze: five rows are written, and row 1
has five characters with `'X'` at column 1 and the stored character at the
other columns. -/
theorem displayMap_cells_witness :
    (1 : Nat) < fiveRowMaze.height.toNat ∧
    ∃ rows : List (List Char),
      displayMap fiveRowMaze = joinLines rows ∧ rows.length = fiveRowMaze.height.toNat ∧
      ∃ out : List Char,
        rows[1]? = some out ∧ out.length = fiveRowMaze.width.toNat ∧
        ∀ x : Nat, x < fiveRowMaze.width.toNat →
          out[x]? = some (if (x : Int) = fiveRowMaze.playerX ∧
            ((1 : Nat) : Int) = fiveRowMaze.playerY then 'X' else fiveRowMaze.grid 1 x) :=
  ⟨by decide,
    match displayMap_cells.1 fiveRowMaze with
    | ⟨rows, h1, h2, h3, _⟩ => ⟨rows, h1, h2, h3 1 (by decide)⟩⟩

/-! ## The game loop -/

theorem gameLoop_single (maze : Maze) (c : Char) :
    gameLoop maze [c] =
      if c = 'Q' ∨ c = 'q' then (maze, .quit)
      else if c = 'M' ∨ c = 'm' then (maze, .running)
      else if isAtExit (movePlayer maze c) then (movePlayer maze c, .win)
      else (movePlayer maze c, .running) := by
  unfold gameLoop
  split_ifs <;> rfl

theorem gameLoop_cons (maze : Maze) (c : Char) (rest : List Char) :
    gameLoop maze (c :: rest) =
      if c = 'Q' ∨ c = 'q' then (maze, .quit)
      else if c = 'M' ∨ c = 'm' then gameLoop maze rest
      else if isAtExit (movePlayer maze c) then (movePlayer maze c, .win)
      else gameLoop (movePlayer maze c) rest := by
  rw [gameLoop]

/-- One command either ends the loop (quit or win), whatever follows, or
hands the rest of the input to the loop in the next state, which is the old
state or the moved state away from the exit. -/
theorem gameLoop_cons_cases (maze : Maze) (c : Char) :
    (∀ r, gameLoop maze (c :: r) = (maze, .quit)) ∨
    (∀ r, gameLoop maze (c :: r) = (movePlayer maze c, .win)) ∨
    ∃ next : Maze, (next = maze ∨ (next = movePlayer maze c ∧ isAtExit next = false)) ∧
      ∀ r, gameLoop maze (c :: r) = gameLoop next r := by
  by_cases h1 : c = 'Q' ∨ c = 'q'
  · left
    intro r
    rw [gameLoop_cons, if_pos h1]
  · by_cases h2 : c = 'M' ∨ c = 'm'
    · right; right
      refine ⟨maze, Or.inl rfl, fun r => ?_⟩
      rw [gameLoop_cons, if_neg h1, if_pos h2]
    · by_cases h3 : isAtExit (movePlayer maze c) = true
      · right; left
        intro r
        rw [gameLoop_cons, if_neg h1, if_neg h2, if_pos h3]
      · right; right
        refine ⟨movePlayer maze c, Or.inr ⟨rfl, by simpa using h3⟩, fun r => ?_⟩
        rw [gameLoop_cons, if_neg h1, if_neg h2, if_neg h3]

theorem gameLoop_append : ∀ (p q : List Char) (maze : Maze),
    (gameLoop maze p).2 = .running →
    gameLoop maze (p ++ q) = gameLoop (gameLoop maze p).1 q := by
  intro p
  induction p with
  | nil => intro q maze _; rfl
  | cons c p ih =>
    intro q maze h
    rw [List.cons_append]
    rcases gameLoop_cons_cases maze c with hq | hw | ⟨next, _, hn⟩
    · rw [hq] at h; cases h
    · rw [hw] at h; cases h
    · rw [hn] at h ⊢
      rw [hn]
      exact ih q next h

theorem gameLoop_append_ended : ∀ (p q : List Char) (maze : Maze),
    (gameLoop maze p).2 ≠ .running → gameLoop maze (p ++ q) = gameLoop maze p := by
  intro p
  induction p with
  | nil => intro q maze h; exact absurd rfl h
  | cons c p ih =>
    intro q maze h
    rw [List.cons_append]
    rcases gameLoop_cons_cases maze c with hq | hw | ⟨next, _, hn⟩
    · rw [hq, hq]
    · rw [hw, hw]
    · rw [hn] at h ⊢
      rw [hn]
      exact ih q next h

theorem gameLoop_running_not_exit : ∀ (p : List Char) (maze : Maze),
    isAtExit maze = false → (gameLoop maze p).2 = .running →
    isAtExit (gameLoop maze p).1 = false := by
  intro p
  induction p with
  | nil => intro maze h _; exact h
  | cons c p ih =>
    intro maze h hrun
    rcases gameLoop_cons_cases maze c with hq | hw | ⟨next, hnext, hn⟩
    · rw [hq] at hrun; cases hrun
    · rw [hw] at hrun; cases hrun
    · rw [hn] at hrun ⊢
      refine ih next ?_ hrun
      rcases hnext with h1 | ⟨_, h2⟩
      · rw [h1]; exact h
      · exact h2

theorem isAtExit_eq_true (maze : Maze) :
    isAtExit maze = true ↔ maze.grid maze.playerY.toNat maze.playerX.toNat = 'E' := by
  unfold isAtExit Maze.cell
  exact beq_iff_eq

theorem isAtExit_of_ne (maze : Maze)
    (h : maze.grid maze.playerY.toNat maze.playerX.toNat ≠ 'E') : isAtExit maze = false := by
  cases he : isAtExit maze with
  | false => rfl
  | true => exact absurd ((isAtExit_eq_true maze).mp he) h

theorem loadMaze_not_at_exit (content : List Char) (m : Maze) (h : loadMaze content = .ok m) :
    isAtExit m = false := by
  obtain ⟨y, x, hy, hx, _, _, hS, _⟩ := loadMaze_start_cell content m h
  apply isAtExit_of_ne
  rw [hy, hx, Int.toNat_ofNat, Int.toNat_ofNat, hS]
  decide

/-- A command that is neither quit nor a movement character, given to the
loop in a state away from the exit, leaves the state as it is and the loop
running. -/
theorem gameLoop_single_other (maze : Maze) (c : Char) (hexit : isAtExit maze = false)
    (hc : ¬ (c = 'W' ∨ c = 'w' ∨ c = 'S' ∨ c = 's' ∨ c = 'A' ∨ c = 'a' ∨ c = 'D' ∨ c = 'd' ∨
      c = 'Q' ∨ c = 'q')) :
    gameLoop maze [c] = (maze, .running) := by
  rw [gameLoop_single, if_neg (by tauto)]
  by_cases hm : c = 'M' ∨ c = 'm'
  · rw [if_pos hm]
  · rw [if_neg hm, movePlayer_of_none maze c (moveDelta_eq_none c (by tauto)), hexit]
    rfl

/-- C12 as stated fails: with the player in bounds on the `'E'` of the
example rows, the commands `x`, `Q` end the loop at `x`, a character that
is neither Q/q nor a movement character, and the loop ends as a win, not at
the later `Q`. -/
theorem gameLoop_end_counterexample :
    ((0 ≤ exitMaze.playerX ∧ exitMaze.playerX < exitMaze.width) ∧
      (0 ≤ exitMaze.playerY ∧ exitMaze.playerY < exitMaze.height)) ∧
    ¬ ('x' = 'Q' ∨ 'x' = 'q' ∨ 'x' = 'W' ∨ 'x' = 'w' ∨ 'x' = 'S' ∨ 'x' = 's' ∨
        'x' = 'A' ∨ 'x' = 'a' ∨ 'x' = 'D' ∨ 'x' = 'd') ∧
    (gameLoop exitMaze ['x']).2 = .win ∧
    (gameLoop exitMaze ['x', 'Q']).2 = .win := by
  refine ⟨by decide, by decide, by decide, by decide⟩

/-- C12, amended: the loop ends at the first command that is either Q/q
(quit) or a command other than Q/q and M/m, be it a movement character or
any other character, after whose `movePlayer` call the player's cell holds
`'E'` (win), and at no earlier command; after it no command is processed.
When the player does not start on an `'E'`, the command of a win is always a
movement character.  On the example rows from row 1, column 1, the loop is
still running after `D` and the commands `D`, `D` end it in the win state
with the player at column 3. -/
theorem gameLoop_end :
    (∀ (maze : Maze) (p : List Char) (c : Char), (gameLoop maze p).2 = .running →
      ((gameLoop maze (p ++ [c])).2 = .quit ↔ (c = 'Q' ∨ c = 'q')) ∧
      ((gameLoop maze (p ++ [c])).2 = .win ↔
        (¬ (c = 'Q' ∨ c = 'q') ∧ ¬ (c = 'M' ∨ c = 'm') ∧
          (movePlayer (gameLoop maze p).1 c).grid
            (movePlayer (gameLoop maze p).1 c).playerY.toNat
            (movePlayer (gameLoop maze p).1 c).playerX.toNat = 'E')) ∧
      ((gameLoop maze (p ++ [c])).2 = .quit →
        (gameLoop maze (p ++ [c])).1 = (gameLoop maze p).1) ∧
      ((gameLoop maze (p ++ [c])).2 = .win →
        (gameLoop maze (p ++ [c])).1 = movePlayer (gameLoop maze p).1 c)) ∧
    (∀ (maze : Maze) (p q : List Char), (gameLoop maze p).2 ≠ .running →
      gameLoop maze (p ++ q) = gameLoop maze p) ∧
    (∀ (maze : Maze) (p : List Char) (c : Char),
      maze.grid maze.playerY.toNat maze.playerX.toNat ≠ 'E' →
      (gameLoop maze p).2 = .running → (gameLoop maze (p ++ [c])).2 = .win →
      (c = 'W' ∨ c = 'w' ∨ c = 'S' ∨ c = 's' ∨ c = 'A' ∨ c = 'a' ∨ c = 'D' ∨ c = 'd')) ∧
    ((gameLoop scenarioMaze ['D']).2 = .running ∧
      (gameLoop scenarioMaze ['D', 'D']).2 = .win ∧
      (gameLoop scenarioMaze ['D', 'D']).1.playerX = 3 ∧
      (gameLoop scenarioMaze ['D', 'D']).1.playerY = 1) := by
  refine ⟨?_, fun maze p q h => gameLoop_append_ended p q maze h, ?_,
    by decide, by decide, by decide, by decide⟩
  · intro maze p c hrun
    rw [gameLoop_append p [c] maze hrun, gameLoop_single]
    by_cases h1 : c = 'Q' ∨ c = 'q'
    · rw [if_pos h1]
      exact ⟨⟨fun _ => h1, fun _ => rfl⟩, ⟨(fun h => by cases h), fun h => absurd h1 h.1⟩,
        fun _ => rfl, (fun h => by cases h)⟩
    · rw [if_neg h1]
      by_cases h2 : c = 'M' ∨ c = 'm'
      · rw [if_pos h2]
        exact ⟨⟨(fun h => by cases h), fun h => absurd h h1⟩,
          ⟨(fun h => by cases h), fun h => absurd h2 h.2.1⟩, (fun h => by cases h),
          (fun h => by cases h)⟩
      · rw [if_neg h2]
        by_cases h3 : isAtExit (movePlayer (gameLoop maze p).1 c) = true
        · rw [if_pos h3]
          exact ⟨⟨(fun h => by cases h), fun h => absurd h h1⟩,
            ⟨fun _ => ⟨h1, h2, (isAtExit_eq_true _).mp h3⟩, fun _ => rfl⟩,
            (fun h => by cases h), fun _ => rfl⟩
        · rw [if_neg h3]
          exact ⟨⟨(fun h => by cases h), fun h => absurd h h1⟩,
            ⟨(fun h => by cases h), fun h => absurd ((isAtExit_eq_true _).mpr h.2.2) h3⟩,
            (fun h => by cases h), (fun h => by cases h)⟩
  · intro maze p c hstart hrun hwin
    by_contra hc
    have hexit := gameLoop_running_not_exit p maze (isAtExit_of_ne maze hstart) hrun
    have hq : ¬ (c = 'Q' ∨ c = 'q') := by
      intro hq
      rw [gameLoop_append p [c] maze hrun, gameLoop_single, if_pos hq] at hwin
      cases hwin
    rw [gameLoop_append p [c] maze hrun,
      gameLoop_single_other (gameLoop maze p).1 c hexit (by tauto)] at hwin
    cases hwin

/-- The first part of the amended C12 on the example rows: the loop is
running after `D`, and the next command `D` ends it as a win. -/
theorem gameLoop_end_witness :
    (gameLoop scenarioMaze ['D']).2 = .running ∧
    ((gameLoop scenarioMaze (['D'] ++ ['D'])).2 = .win ↔
      (¬ ('D' = 'Q' ∨ 'D' = 'q') ∧ ¬ ('D' = 'M' ∨ 'D' = 'm') ∧
        (movePlayer (gameLoop scenarioMaze ['D']).1 'D').grid
          (movePlayer (gameLoop scenarioMaze ['D']).1 'D').playerY.toNat
          (movePlayer (gameLoop scenarioMaze ['D']).1 'D').playerX.toNat = 'E')) :=
  ⟨by decide, (gameLoop_end.1 scenarioMaze ['D'] 'D' (by decide)).2.1⟩

/-- C13: in every state that the game loop reaches while it is still running
after a successful `loadMaze`, a command character that is neither a
movement character nor Q/q (M/m or any unrecognized character) leaves the
whole maze state unchanged and the loop running; so it never ends the game
as a win. -/
theorem other_command_keeps_state (content : List Char) (m : Maze) (p : List Char) (c : Char)
    (h : loadMaze content = .ok m) (hrun : (gameLoop m p).2 = .running)
    (hc : ¬ (c = 'W' ∨ c = 'w' ∨ c = 'S' ∨ c = 's' ∨ c = 'A' ∨ c = 'a' ∨ c = 'D' ∨ c = 'd' ∨
      c = 'Q' ∨ c = 'q')) :
    gameLoop (gameLoop m p).1 [c] = ((gameLoop m p).1, .running) ∧
    gameLoop m (p ++ [c]) = ((gameLoop m p).1, .running) ∧
    (gameLoop m (p ++ [c])).2 ≠ .win := by
  have hexit := gameLoop_running_not_exit p m (loadMaze_not_at_exit content m h) hrun
  have hstep := gameLoop_single_other (gameLoop m p).1 c hexit hc
  have hall : gameLoop m (p ++ [c]) = ((gameLoop m p).1, .running) := by
    rw [gameLoop_append p [c] m hrun, hstep]
  refine ⟨hstep, hall, ?_⟩
  rw [hall]
  exact fun hw => Outcome.noConfusion hw

/-- C13 on the five-row file: after the commands `D`, `m` the loop is
running, and the unrecognized character `x` changes nothing. -/
theorem other_command_keeps_state_witness :
    loadMaze fiveRowFile = .ok fiveRowMaze ∧
    (gameLoop fiveRowMaze ['D', 'm']).2 = .running ∧
    gameLoop (gameLoop fiveRowMaze ['D', 'm']).1 ['x'] =
      ((gameLoop fiveRowMaze ['D', 'm']).1, .running) ∧
    gameLoop fiveRowMaze (['D', 'm'] ++ ['x']) =
      ((gameLoop fiveRowMaze ['D', 'm']).1, .running) ∧
    (gameLoop fiveRowMaze (['D', 'm'] ++ ['x'])).2 ≠ .win :=
  ⟨rfl, by decide,
    other_command_keeps_state fiveRowFile fiveRowMaze ['D', 'm'] 'x' rfl (by decide)
      (by decide)⟩

/-! ## `strlen` and the rows written by the read loop -/

theorem strlenFrom_ge (buf : Row) : ∀ (k i : Nat), i ≤ strlenFrom buf k i := by
  intro k
  induction k with
  | zero => intro i; exact le_refl _
  | succ k ih =>
    intro i
    unfold strlenFrom
    split_ifs
    · exact le_refl _
    · exact le_trans (Nat.le_succ i) (ih (i + 1))

theorem strlenFrom_le_add (buf : Row) : ∀ (k i : Nat), strlenFrom buf k i ≤ i + k := by
  intro k
  induction k with
  | zero => intro i; exact le_refl _
  | succ k ih =>
    intro i
    unfold strlenFrom
    split_ifs
    · omega
    · have := ih (i + 1)
      omega

theorem strlenFrom_not_nul (buf : Row) : ∀ (k i x : Nat), i ≤ x → x < strlenFrom buf k i →
    buf x ≠ NUL := by
  intro k
  induction k with
  | zero => intro i x h1 h2; unfold strlenFrom at h2; omega
  | succ k ih =>
    intro i x h1 h2
    unfold strlenFrom at h2
    split_ifs at h2 with h
    · omega
    · by_cases he : x = i
      · rw [he]; exact h
      · exact ih (i + 1) x (by omega) h2

theorem strlenFrom_nul (buf : Row) : ∀ (k i : Nat), strlenFrom buf k i < i + k →
    buf (strlenFrom buf k i) = NUL := by
  intro k
  induction k with
  | zero => intro i h; unfold strlenFrom at h; omega
  | succ k ih =>
    intro i h
    unfold strlenFrom at h ⊢
    split_ifs at h ⊢ with h0
    · exact h0
    · exact ih (i + 1) (by omega)

theorem strlenFrom_le_of_nul (buf : Row) (n : Nat) (hn : buf n = NUL) :
    ∀ (k i : Nat), i ≤ n → strlenFrom buf k i ≤ n := by
  intro k
  induction k with
  | zero => intro i h; exact h
  | succ k ih =>
    intro i h
    unfold strlenFrom
    split_ifs with h0
    · exact h
    · have hne : i ≠ n := fun he => h0 (he ▸ hn)
      exact ih (i + 1) (by omega)

theorem strlen_le_of_nul (buf : Row) (n : Nat) (hn : buf n = NUL) : strlen buf ≤ n :=
  strlenFrom_le_of_nul buf n hn MAX_SIZE 0 (Nat.zero_le _)

theorem strlen_not_nul (buf : Row) (x : Nat) (h : x < strlen buf) : buf x ≠ NUL :=
  strlenFrom_not_nul buf MAX_SIZE 0 x (Nat.zero_le _) h

theorem strlen_nul (buf : Row) (h : strlen buf < MAX_SIZE) : buf (strlen buf) = NUL :=
  strlenFrom_nul buf MAX_SIZE 0 (by rw [Nat.zero_add]; exact h)

theorem strlen_eq (buf : Row) (n : Nat) (hlt : n < MAX_SIZE)
    (hne : ∀ x, x < n → buf x ≠ NUL) (hn : buf n = NUL) : strlen buf = n := by
  have hle := strlen_le_of_nul buf n hn
  by_contra hc
  have hlt' : strlen buf < n := by omega
  exact hne (strlen buf) hlt' (strlen_nul buf (by omega))

theorem stripNewline_apply (buf : Row) (x : Nat) :
    stripNewline buf x = buf x ∨ (stripNewline buf x = NUL ∧ buf x = '\n') := by
  unfold stripNewline
  split_ifs with h
  · simp only [Bool.and_eq_true, decide_eq_true_eq, beq_iff_eq] at h
    unfold setAt
    split_ifs with hx
    · right; exact ⟨rfl, hx ▸ h.2⟩
    · left; rfl
  · left; rfl

theorem stripNewline_of_nul (buf : Row) (x : Nat) (h : buf x = NUL) :
    stripNewline buf x = NUL := by
  rcases stripNewline_apply buf x with h1 | ⟨h1, _⟩
  · rw [h1]; exact h
  · exact h1

theorem stripNewline_of_ne (buf : Row) (x : Nat) (h : buf x ≠ '\n') :
    stripNewline buf x = buf x := by
  rcases stripNewline_apply buf x with h1 | ⟨_, h2⟩
  · exact h1
  · exact absurd h2 h

/-- When the string in the buffer is shorter than `MAX_SIZE`, the truncation
branch of lines 56-60 is skipped and the row stored is the buffer after the
newline strip. -/
theorem readBody_grid (st : ReadState) (buf : Row) (fp : List Char)
    (h : strlen buf < MAX_SIZE) :
    (readBody st buf fp).grid = setRow st.grid st.row (stripNewline buf) := by
  unfold readBody stripNewline
  simp only
  have hno : ∀ c : Bool, decide ((if c = true then strlen buf - 1 else strlen buf) ≥ MAX_SIZE)
      = false := by
    intro c
    cases c <;> simp <;> omega
  rw [hno]
  rfl

theorem fgets_some (buf0 : Row) (fp : List Char) (buf : Row) (fp' : List Char)
    (h : fgets buf0 MAX_SIZE fp = some (buf, fp')) :
    fp ≠ [] ∧ buf = storeString buf0 (fgetsRead (MAX_SIZE - 1) fp).1 ∧
      fp' = (fgetsRead (MAX_SIZE - 1) fp).2 := by
  unfold fgets at h
  split at h
  · cases h
  · simp only [Option.some.injEq, Prod.mk.injEq] at h
    exact ⟨by simp, h.1.symm, h.2.symm⟩

theorem fgets_of_ne_nil (buf0 : Row) (fp : List Char) (h : fp ≠ []) :
    fgets buf0 MAX_SIZE fp =
      some (storeString buf0 (fgetsRead (MAX_SIZE - 1) fp).1, (fgetsRead (MAX_SIZE - 1) fp).2) := by
  cases fp with
  | nil => exact absurd rfl h
  | cons c fp => rfl

theorem storeString_at_length (buf0 : Row) (s : List Char) :
    storeString buf0 s s.length = NUL := by
  unfold storeString
  rw [if_neg (Nat.lt_irrefl _), if_pos rfl]

theorem storeString_lt (buf0 : Row) (s : List Char) (x : Nat) (h : x < s.length) :
    storeString buf0 s x = s.getD x NUL := by
  unfold storeString
  rw [if_pos h]

theorem storeString_gt (buf0 : Row) (s : List Char) (x : Nat) (h : s.length < x) :
    storeString buf0 s x = buf0 x := by
  unfold storeString
  rw [if_neg (by omega), if_neg (by omega)]

theorem fgets_strlen (buf0 : Row) (fp : List Char) (buf : Row) (fp' : List Char)
    (h : fgets buf0 MAX_SIZE fp = some (buf, fp')) : strlen buf ≤ MAX_SIZE - 1 := by
  obtain ⟨_, hbuf, _⟩ := fgets_some buf0 fp buf fp' h
  rw [hbuf]
  exact le_trans (strlen_le_of_nul _ _ (storeString_at_length buf0 _))
    (fgetsRead_length_le (MAX_SIZE - 1) fp)

theorem readLoop_succ_none (fuel : Nat) (st : ReadState)
    (h : fgets (st.grid st.row) MAX_SIZE st.fp = none) : readLoop (fuel + 1) st = st := by
  rw [readLoop, h]

theorem readLoop_succ_some (fuel : Nat) (st : ReadState) (buf : Row) (fp : List Char)
    (h : fgets (st.grid st.row) MAX_SIZE st.fp = some (buf, fp)) :
    readLoop (fuel + 1) st =
      if (readBody st buf fp).row ≥ MAX_SIZE then readBody st buf fp
      else readLoop fuel (readBody st buf fp) := by
  rw [readLoop, h]

/-- A property of the loop state that every pass through the loop body keeps
holds when the loop is left. -/
theorem readLoop_invariant (Q : ReadState → Prop)
    (hstep : ∀ (st : ReadState) (buf : Row) (fp : List Char), Q st →
      fgets (st.grid st.row) MAX_SIZE st.fp = some (buf, fp) → Q (readBody st buf fp)) :
    ∀ (fuel : Nat) (st : ReadState), Q st → Q (readLoop fuel st) := by
  intro fuel
  induction fuel with
  | zero => intro st h; exact h
  | succ fuel ih =>
    intro st h
    cases hf : fgets (st.grid st.row) MAX_SIZE st.fp with
    | none => rw [readLoop_succ_none fuel st hf]; exact h
    | some r =>
      obtain ⟨buf, fp⟩ := r
      rw [readLoop_succ_some fuel st buf fp hf]
      split_ifs
      · exact hstep st buf fp h hf
      · exact ih _ (hstep st buf fp h hf)

theorem readBody_grid_other (st : ReadState) (buf : Row) (fp : List Char) (y : Nat)
    (h : y ≠ st.row) : (readBody st buf fp).grid y = st.grid y := by
  unfold readBody
  simp only [setRow]
  rw [if_neg h]

theorem readLoop_rows_below : ∀ (fuel : Nat) (st : ReadState) (y : Nat), y < st.row →
    (readLoop fuel st).grid y = st.grid y := by
  intro fuel
  induction fuel with
  | zero => intro st y _; rfl
  | succ fuel ih =>
    intro st y hy
    cases hf : fgets (st.grid st.row) MAX_SIZE st.fp with
    | none => rw [readLoop_succ_none fuel st hf]
    | some r =>
      obtain ⟨buf, fp⟩ := r
      rw [readLoop_succ_some fuel st buf fp hf]
      split_ifs
      · exact readBody_grid_other st buf fp y (by omega)
      · rw [ih (readBody st buf fp) y (by rw [readBody_row]; omega)]
        exact readBody_grid_other st buf fp y (by omega)

theorem readLoop_row_ge : ∀ (fuel : Nat) (st : ReadState), st.row ≤ (readLoop fuel st).row := by
  intro fuel
  induction fuel with
  | zero => intro st; exact le_refl _
  | succ fuel ih =>
    intro st
    cases hf : fgets (st.grid st.row) MAX_SIZE st.fp with
    | none => rw [readLoop_succ_none fuel st hf]
    | some r =>
      obtain ⟨buf, fp⟩ := r
      rw [readLoop_succ_some fuel st buf fp hf]
      split_ifs
      · rw [readBody_row]; omega
      · have := ih (readBody st buf fp)
        rw [readBody_row] at this
        omega

/-- Every row of the grid holds a NUL among its first `MAX_SIZE` bytes, so
the string of every row is shorter than `MAX_SIZE`. -/
theorem readMaze_strlen_le (content : List Char) (y : Nat) :
    strlen ((readMaze content).grid y) ≤ MAX_SIZE - 1 := by
  have hQ := readLoop_invariant
    (fun st => ∀ y, ∃ n, n ≤ MAX_SIZE - 1 ∧ st.grid y n = NUL) (by
      intro st buf fp hst hf y
      have hlen := fgets_strlen _ _ _ _ hf
      obtain ⟨_, hbuf, _⟩ := fgets_some _ _ _ _ hf
      rw [readBody_grid st buf fp (by have : MAX_SIZE = 100 := rfl; omega)]
      unfold setRow
      split_ifs
      · refine ⟨(fgetsRead (MAX_SIZE - 1) st.fp).1.length,
          fgetsRead_length_le (MAX_SIZE - 1) st.fp, ?_⟩
        apply stripNewline_of_nul
        rw [hbuf]
        exact storeString_at_length _ _
      · exact hst y)
    MAX_SIZE { grid := clearedGrid, row := 0, startCount := 0, endCount := 0, fp := content }
    (fun _ => ⟨0, Nat.zero_le _, rfl⟩)
  obtain ⟨n, hn, hnul⟩ := hQ y
  exact le_trans (strlen_le_of_nul _ n hnul) hn

/-- With a file free of NUL bytes, every row of the grid is padded with NUL
from the end of its string on. -/
theorem readMaze_padded (content : List Char) (hnul : NUL ∉ content) (y : Nat) :
    Padded ((readMaze content).grid y) := by
  have hQ := readLoop_invariant
    (fun st => (∀ c, c ∈ st.fp → c ≠ NUL) ∧ (∀ y, st.row ≤ y → ∀ x, st.grid y x = NUL) ∧
      ∀ y, Padded (st.grid y)) (by
      intro st buf fp ⟨hfp, hfresh, hpad⟩ hf
      obtain ⟨_, hbuf, hfp'⟩ := fgets_some _ _ _ _ hf
      have happ := fgetsRead_append (MAX_SIZE - 1) st.fp
      have hslen := fgetsRead_length_le (MAX_SIZE - 1) st.fp
      have hsnul : ∀ x, x < (fgetsRead (MAX_SIZE - 1) st.fp).1.length → buf x ≠ NUL := by
        intro x hx
        rw [hbuf, storeString_lt _ _ x hx, List.getD_eq_getElem _ NUL hx]
        apply hfp
        have h2 : (fgetsRead (MAX_SIZE - 1) st.fp).1[x] ∈
            (fgetsRead (MAX_SIZE - 1) st.fp).1 ++ (fgetsRead (MAX_SIZE - 1) st.fp).2 :=
          List.mem_append.mpr (Or.inl (List.getElem_mem hx))
        rwa [happ] at h2
      have hbuf_ge : ∀ x, (fgetsRead (MAX_SIZE - 1) st.fp).1.length ≤ x → buf x = NUL := by
        intro x hx
        rw [hbuf]
        by_cases he : x = (fgetsRead (MAX_SIZE - 1) st.fp).1.length
        · rw [he]; exact storeString_at_length _ _
        · rw [storeString_gt _ _ x (by omega)]
          exact hfresh st.row (le_refl _) x
      have hM : MAX_SIZE = 100 := rfl
      have hstr : strlen buf = (fgetsRead (MAX_SIZE - 1) st.fp).1.length :=
        strlen_eq buf _ (by omega) hsnul (hbuf_ge _ (le_refl _))
      refine ⟨?_, ?_, ?_⟩
      · intro c hc
        rw [readBody_fp, hfp'] at hc
        apply hfp
        have h2 : c ∈ (fgetsRead (MAX_SIZE - 1) st.fp).1 ++ (fgetsRead (MAX_SIZE - 1) st.fp).2 :=
          List.mem_append.mpr (Or.inr hc)
        rwa [happ] at h2
      · intro y hy x
        rw [readBody_row] at hy
        rw [readBody_grid_other st buf fp y (by omega)]
        exact hfresh y (by omega) x
      · intro y
        by_cases hy : y = st.row
        · rw [readBody_grid st buf fp (by omega)]
          unfold setRow
          rw [if_pos hy]
          unfold stripNewline
          split_ifs with hstrip
          · simp only [Bool.and_eq_true, decide_eq_true_eq, beq_iff_eq] at hstrip
            have hlen' : strlen (setAt buf (strlen buf - 1) NUL) = strlen buf - 1 := by
              apply strlen_eq _ _ (by omega)
              · intro x hx
                unfold setAt
                rw [if_neg (by omega)]
                exact hsnul x (by omega)
              · unfold setAt
                rw [if_pos rfl]
            intro x hx
            rw [hlen'] at hx
            unfold setAt
            split_ifs
            · rfl
            · exact hbuf_ge x (by omega)
          · intro x hx
            exact hbuf_ge x (by omega)
        · rw [readBody_grid_other st buf fp y hy]
          exact hpad y)
    MAX_SIZE { grid := clearedGrid, row := 0, startCount := 0, endCount := 0, fp := content }
    ⟨fun c hc he => hnul (he ▸ hc), fun _ _ _ => rfl, fun _ _ _ => rfl⟩
  exact hQ.2.2 y

/-! ## Claims about rows of different length -/

/-- C19: when the loaded height and width both lie in `[5, 100]`, `loadMaze`
succeeds exactly when some loaded row `y < height` holds an `'S'` at a
column `x < width`; when every `'S'` of the loaded rows is at a column
`>= width`, the load fails with the missing-start exit, as if there were no
`'S'`. -/
theorem loadMaze_iff_start_in_width (content : List Char)
    (hdim : (5 ≤ (readMaze content).row ∧ (readMaze content).row ≤ 100) ∧
      (5 ≤ strlen ((readMaze content).grid 0) ∧ strlen ((readMaze content).grid 0) ≤ 100)) :
    ((∃ m : Maze, loadMaze content = .ok m) ↔
      ∃ y x : Nat, y < (readMaze content).row ∧ x < strlen ((readMaze content).grid 0) ∧
        (readMaze content).grid y x = 'S') ∧
    ((∀ y x : Nat, y < (readMaze content).row → (readMaze content).grid y x = 'S' →
        strlen ((readMaze content).grid 0) ≤ x) →
      loadMaze content = .error .MissingStart) := by
  have hd : ¬ ((readMaze content).row < 5 ∨ (readMaze content).row > 100 ∨
      strlen ((readMaze content).grid 0) < 5 ∨ strlen ((readMaze content).grid 0) > 100) := by
    omega
  refine ⟨⟨?_, ?_⟩, ?_⟩
  · rintro ⟨m, hm⟩
    obtain ⟨_, _, y, x, hfind, _⟩ := loadMaze_ok content m hm
    obtain ⟨_, h2, h3, h4, _⟩ := findStart_some _ _ _ 0 y x hfind
    exact ⟨y, x, by omega, h3, h4⟩
  · rintro ⟨y, x, hy, hx, hS⟩
    obtain ⟨p, hp⟩ := findStart_of_cell (readMaze content).grid
      (strlen ((readMaze content).grid 0)) (readMaze content).row 0 y x (Nat.zero_le _)
      (by omega) hx hS
    exact ⟨_, loadMaze_found content p.1 p.2 hd hp⟩
  · intro hall
    apply loadMaze_missingStart content hd
    cases hf : findStart (readMaze content).grid (strlen ((readMaze content).grid 0))
        (readMaze content).row 0 with
    | none => rfl
    | some p =>
      obtain ⟨y, x⟩ := p
      obtain ⟨_, h2, h3, h4, _⟩ := findStart_some _ _ _ 0 y x hf
      have := hall y x (by omega) h4
      omega

/-- C19 on `hiddenStartFile`: height and width are 5, the only `'S'` is at
row 1, column 5, and the load fails for the missing start marker. -/
theorem loadMaze_iff_start_in_width_witness :
    ((5 ≤ (readMaze hiddenStartFile).row ∧ (readMaze hiddenStartFile).row ≤ 100) ∧
      (5 ≤ strlen ((readMaze hiddenStartFile).grid 0) ∧
        strlen ((readMaze hiddenStartFile).grid 0) ≤ 100)) ∧
    (readMaze hiddenStartFile).grid 1 5 = 'S' ∧
    ((∃ m : Maze, loadMaze hiddenStartFile = .ok m) ↔
      ∃ y x : Nat, y < (readMaze hiddenStartFile).row ∧
        x < strlen ((readMaze hiddenStartFile).grid 0) ∧
        (readMaze hiddenStartFile).grid y x = 'S') ∧
    ((∀ y x : Nat, y < (readMaze hiddenStartFile).row →
        (readMaze hiddenStartFile).grid y x = 'S' →
        strlen ((readMaze hiddenStartFile).grid 0) ≤ x) →
      loadMaze hiddenStartFile = .error .MissingStart) :=
  ⟨by decide, by decide, loadMaze_iff_start_in_width hiddenStartFile (by decide)⟩

/-- C20 as stated fails: `nulRowFile` is loaded successfully, the stored
line of row 1 is `"#S"` (length 2, shorter than the width 5), but the cell at
row 1, column 3 behind its end holds `'#'`, not NUL, and `isValidMove`
rejects it. -/
theorem short_row_counterexample :
    loadMaze nulRowFile = .ok nulRowMaze ∧
    (1 : Int) < nulRowMaze.height ∧
    strlen (nulRowMaze.grid 1) = 2 ∧ (2 : Int) < nulRowMaze.width ∧
    (strlen (nulRowMaze.grid 1) ≤ 3 ∧ (3 : Int) < nulRowMaze.width) ∧
    nulRowMaze.grid 1 3 = '#' ∧ nulRowMaze.grid 1 3 ≠ NUL ∧
    isValidMove nulRowMaze 3 1 = false := by
  refine ⟨rfl, by decide, by decide, by decide, by decide, by decide, by decide, by decide⟩

/-- C20, amended: for a file without NUL bytes that `loadMaze` loads, in
every row `y < height` whose stored line is shorter than `width`, each cell
`grid[y][x]` with line length `<= x < width` holds NUL and passes
`isValidMove`: the cells behind the end of a short row are open floor. -/
theorem short_row_is_open (content : List Char) (m : Maze) (hnul : NUL ∉ content)
    (h : loadMaze content = .ok m) (y x : Nat) (hy : (y : Int) < m.height)
    (hlen : strlen (m.grid y) ≤ x) (hx : (x : Int) < m.width) :
    m.grid y x = NUL ∧ isValidMove m x y = true := by
  obtain ⟨_, _, y0, x0, _, hm⟩ := loadMaze_ok content m h
  have hgrid : m.grid = (readMaze content).grid := by rw [hm]
  have hcell : m.grid y x = NUL := by
    rw [hgrid] at hlen ⊢
    exact readMaze_padded content hnul y x hlen
  refine ⟨hcell, ?_⟩
  rw [isValidMove_eq_true]
  refine ⟨by omega, hx, by omega, hy, ?_⟩
  unfold Maze.cell
  rw [Int.toNat_ofNat, Int.toNat_ofNat, hcell]
  decide

/-- The amended C20 on `shortRowFile`: row 1 holds `"#S"`, and the cell at
row 1, column 3 is NUL and can be entered. -/
theorem short_row_is_open_witness :
    NUL ∉ shortRowFile ∧ loadMaze shortRowFile = .ok shortRowMaze ∧
    ((1 : Nat) : Int) < shortRowMaze.height ∧ strlen (shortRowMaze.grid 1) ≤ 3 ∧
    ((3 : Nat) : Int) < shortRowMaze.width ∧
    shortRowMaze.grid 1 3 = NUL ∧ isValidMove shortRowMaze (3 : Nat) (1 : Nat) = true :=
  ⟨by decide, rfl, by decide, by decide, by decide,
    short_row_is_open shortRowFile shortRowMaze (by decide) rfl 1 3 (by decide) (by decide)
      (by decide)⟩

/-! ## Lines of the file and rows of the grid -/

theorem fgetsRead_append_left : ∀ (a : List Char) (k : Nat) (b : List Char),
    '\n' ∉ a → a.length ≤ k →
    fgetsRead k (a ++ b) =
      (a ++ (fgetsRead (k - a.length) b).1, (fgetsRead (k - a.length) b).2) := by
  intro a
  induction a with
  | nil => intro k b _ _; rfl
  | cons c a ih =>
    intro k b hn hk
    cases k with
    | zero => simp at hk
    | succ k =>
      have hc : c ≠ '\n' := fun he => hn (he ▸ List.mem_cons_self _ _)
      have ha : '\n' ∉ a := fun hm => hn (List.mem_cons_of_mem _ hm)
      rw [List.cons_append, fgetsRead, if_neg hc, ih k b ha (by simpa using hk)]
      simp

theorem fgets_full (buf0 : Row) (a b : List Char) (ha : a.length = MAX_SIZE - 1)
    (hn : '\n' ∉ a) : fgets buf0 MAX_SIZE (a ++ b) = some (storeString buf0 a, b) := by
  have hne : a ++ b ≠ [] := by
    intro he
    have h0 : a.length = 0 := by rw [(List.append_eq_nil.mp he).1]; rfl
    rw [ha] at h0
    exact absurd h0 (by decide)
  rw [fgets_of_ne_nil buf0 (a ++ b) hne, fgetsRead_append_left a (MAX_SIZE - 1) b hn (by omega),
    ha, Nat.sub_self]
  simp [fgetsRead]

theorem fgets_line (buf0 : Row) (l rest : List Char) (hl : l.length < MAX_SIZE - 1)
    (hn : '\n' ∉ l) :
    fgets buf0 MAX_SIZE (l ++ '\n' :: rest) = some (storeString buf0 (l ++ ['\n']), rest) := by
  rw [fgets_of_ne_nil buf0 _ (by simp),
    fgetsRead_append_left l (MAX_SIZE - 1) ('\n' :: rest) hn (by omega)]
  obtain ⟨j, hj⟩ : ∃ j, MAX_SIZE - 1 - l.length = j + 1 := ⟨MAX_SIZE - 1 - l.length - 1, by omega⟩
  rw [hj]
  simp [fgetsRead]

theorem fgets_prefix (buf0 : Row) (a b : List Char) (buf : Row) (fp : List Char)
    (hn : '\n' ∉ a) (ha : a.length ≤ MAX_SIZE - 1)
    (h : fgets buf0 MAX_SIZE (a ++ b) = some (buf, fp)) (x : Nat) (hx : x < a.length) :
    buf x = a.getD x NUL := by
  obtain ⟨_, hbuf, _⟩ := fgets_some _ _ _ _ h
  rw [hbuf, fgetsRead_append_left a (MAX_SIZE - 1) b hn ha]
  rw [storeString_lt _ _ x (by rw [List.length_append]; omega)]
  exact List.getD_append _ _ _ x hx

theorem getD_ne_newline (l : List Char) (hn : '\n' ∉ l) (x : Nat) (hx : x < l.length) :
    l.getD x NUL ≠ '\n' := by
  rw [List.getD_eq_getElem l NUL hx]
  exact fun he => hn (he ▸ List.getElem_mem hx)

theorem getD_ne_nul (l : List Char) (hn : NUL ∉ l) (x : Nat) (hx : x < l.length) :
    l.getD x NUL ≠ NUL := by
  rw [List.getD_eq_getElem l NUL hx]
  exact fun he => hn (he ▸ List.getElem_mem hx)

/-- The row stored for a line of fewer than 99 characters that is read with
its newline: the bytes of the line, and behind a line without NUL bytes the
terminator put in place of the newline. -/
theorem stripNewline_line (buf0 : Row) (l : List Char) (hl : l.length < MAX_SIZE - 1)
    (hn : '\n' ∉ l) :
    (∀ x, x < l.length →
      stripNewline (storeString buf0 (l ++ ['\n'])) x = l.getD x NUL) ∧
    (NUL ∉ l → stripNewline (storeString buf0 (l ++ ['\n'])) l.length = NUL) := by
  have hM : MAX_SIZE = 100 := rfl
  have hlt : ∀ x, x < l.length → storeString buf0 (l ++ ['\n']) x = l.getD x NUL := by
    intro x hx
    rw [storeString_lt _ _ x (by rw [List.length_append]; omega)]
    exact List.getD_append _ _ _ x hx
  have hnl : storeString buf0 (l ++ ['\n']) l.length = '\n' := by
    rw [storeString_lt _ _ _ (by rw [List.length_append]; simp)]
    simp [List.getD_eq_getElem?_getD]
  constructor
  · intro x hx
    rw [stripNewline_of_ne _ x (by rw [hlt x hx]; exact getD_ne_newline l hn x hx)]
    exact hlt x hx
  · intro hnul
    have hend : storeString buf0 (l ++ ['\n']) (l.length + 1) = NUL := by
      have := storeString_at_length buf0 (l ++ ['\n'])
      rwa [List.length_append] at this
    have hstr : strlen (storeString buf0 (l ++ ['\n'])) = l.length + 1 := by
      apply strlen_eq _ _ (by omega) _ hend
      intro x hx
      by_cases he : x = l.length
      · rw [he, hnl]; decide
      · rw [hlt x (by omega)]
        exact getD_ne_nul l hnul x (by omega)
    unfold stripNewline
    rw [hstr, Nat.add_sub_cancel, hnl]
    simp [setAt]

theorem strlen_of_line (r : Row) (l : List Char) (hl : l.length < MAX_SIZE) (hnul : NUL ∉ l)
    (hcells : ∀ x, x < l.length → r x = l.getD x NUL) (hend : r l.length = NUL) :
    strlen r = l.length := by
  apply strlen_eq r _ hl _ hend
  intro x hx
  rw [hcells x hx]
  exact getD_ne_nul l hnul x hx

theorem rowString_of_line (r : Row) (l : List Char) (hl : l.length < MAX_SIZE) (hnul : NUL ∉ l)
    (hcells : ∀ x, x < l.length → r x = l.getD x NUL) (hend : r l.length = NUL) :
    rowString r = l := by
  unfold rowString
  rw [strlen_of_line r l hl hnul hcells hend]
  apply List.ext_getElem
  · rw [List.length_map, List.length_range]
  · intro n h1 h2
    rw [List.getElem_map, List.getElem_range, hcells n h2, List.getD_eq_getElem l NUL h2]

/-- The read loop on a file that goes on with exactly as many short lines
as there are rows left: each line becomes one row, and the loop leaves with
`row = MAX_SIZE` without reading past them. -/
theorem readLoop_lines : ∀ (lines : List (List Char)) (fuel : Nat) (st : ReadState)
    (rest : List Char), lines ≠ [] → st.row + lines.length = MAX_SIZE → lines.length ≤ fuel →
    (∀ l, l ∈ lines → l.length < MAX_SIZE - 1 ∧ '\n' ∉ l) → st.fp = joinLines lines ++ rest →
    (readLoop fuel st).row = MAX_SIZE ∧
    ∀ i, i < lines.length →
      (∀ x, x < (lines.getD i []).length →
        (readLoop fuel st).grid (st.row + i) x = (lines.getD i []).getD x NUL) ∧
      (NUL ∉ lines.getD i [] →
        (readLoop fuel st).grid (st.row + i) (lines.getD i []).length = NUL) := by
  intro lines
  induction lines with
  | nil => intro fuel st rest h; exact absurd rfl h
  | cons l ls ih =>
    intro fuel st rest _ hrow hfuel hshort hfp
    obtain ⟨hl, hn⟩ := hshort l (List.mem_cons_self _ _)
    cases fuel with
    | zero => simp at hfuel
    | succ fuel =>
      have hfp' : st.fp = l ++ '\n' :: (joinLines ls ++ rest) := by
        rw [hfp, joinLines, List.append_assoc, List.cons_append]
      have hf : fgets (st.grid st.row) MAX_SIZE st.fp =
          some (storeString (st.grid st.row) (l ++ ['\n']), joinLines ls ++ rest) := by
        rw [hfp']
        exact fgets_line _ l _ hl hn
      have hstr : strlen (storeString (st.grid st.row) (l ++ ['\n'])) < MAX_SIZE := by
        have := fgets_strlen _ _ _ _ hf
        have hM : MAX_SIZE = 100 := rfl
        omega
      have hrowcell : (readBody st (storeString (st.grid st.row) (l ++ ['\n']))
          (joinLines ls ++ rest)).grid st.row =
          stripNewline (storeString (st.grid st.row) (l ++ ['\n'])) := by
        rw [readBody_grid st _ _ hstr]
        unfold setRow
        rw [if_pos rfl]
      obtain ⟨hcells, hend⟩ := stripNewline_line (st.grid st.row) l hl hn
      rw [readLoop_succ_some fuel st _ _ hf]
      rw [List.length_cons] at hrow hfuel
      by_cases hls : ls = []
      · subst hls
        rw [if_pos (by rw [readBody_row]; simp at hrow; omega)]
        refine ⟨by rw [readBody_row]; simpa using hrow, ?_⟩
        intro i hi
        have hi0 : i = 0 := by simpa using hi
        subst hi0
        rw [Nat.add_zero, hrowcell]
        exact ⟨hcells, hend⟩
      · have hlen : 0 < ls.length := List.length_pos.mpr hls
        rw [if_neg (by rw [readBody_row]; omega)]
        obtain ⟨hfinal, hrows⟩ := ih fuel
          (readBody st (storeString (st.grid st.row) (l ++ ['\n'])) (joinLines ls ++ rest)) rest
          hls (by rw [readBody_row]; omega) (by omega)
          (fun l' hl' => hshort l' (List.mem_cons_of_mem _ hl')) (readBody_fp _ _ _)
        refine ⟨hfinal, ?_⟩
        intro i hi
        cases i with
        | zero =>
          rw [Nat.add_zero, readLoop_rows_below fuel _ st.row (by rw [readBody_row]; omega),
            hrowcell]
          exact ⟨hcells, hend⟩
        | succ j =>
          have hj : j < ls.length := by simpa using hi
          have e : st.row + (j + 1) =
              (readBody st (storeString (st.grid st.row) (l ++ ['\n']))
                (joinLines ls ++ rest)).row + j := by
            rw [readBody_row]; omega
          rw [e, List.getD_cons_succ]
          exact hrows j hj

/-- The first `MAX_SIZE` lines of a file, each shorter than 99 characters,
are its rows: the loop reads `MAX_SIZE` rows and row `i` holds the bytes of
line `i`, closed by a NUL when the line has no NUL byte itself. -/
theorem readMaze_lines (lines : List (List Char)) (rest : List Char)
    (hcount : lines.length = MAX_SIZE)
    (hshort : ∀ l, l ∈ lines → l.length < MAX_SIZE - 1 ∧ '\n' ∉ l) :
    (readMaze (joinLines lines ++ rest)).row = MAX_SIZE ∧
    ∀ i, i < lines.length →
      (∀ x, x < (lines.getD i []).length →
        (readMaze (joinLines lines ++ rest)).grid i x = (lines.getD i []).getD x NUL) ∧
      (NUL ∉ lines.getD i [] →
        (readMaze (joinLines lines ++ rest)).grid i (lines.getD i []).length = NUL) := by
  have hne : lines ≠ [] := by
    intro he
    rw [he] at hcount
    exact absurd hcount (by decide)
  have h := readLoop_lines lines MAX_SIZE
    { grid := clearedGrid, row := 0, startCount := 0, endCount := 0,
      fp := joinLines lines ++ rest } rest hne (by simpa using hcount) (by omega) hshort rfl
  refine ⟨h.1, fun i hi => ?_⟩
  have := h.2 i hi
  simpa using this

theorem readBody_congr (st st' : ReadState) (buf : Row) (fp fp' : List Char)
    (hg : st.grid = st'.grid) (hr : st.row = st'.row) :
    (readBody st buf fp).grid = (readBody st' buf fp').grid ∧
      (readBody st buf fp).row = (readBody st' buf fp').row := by
  unfold readBody
  simp only [hg, hr, and_self]

/-- What lies behind the lines that fill the grid has no influence on the
rows read. -/
theorem readLoop_lines_rest : ∀ (lines : List (List Char)) (fuel : Nat) (st st' : ReadState)
    (rest rest' : List Char), lines ≠ [] → st.row + lines.length = MAX_SIZE →
    lines.length ≤ fuel → (∀ l, l ∈ lines → l.length < MAX_SIZE - 1 ∧ '\n' ∉ l) →
    st.grid = st'.grid → st.row = st'.row →
    st.fp = joinLines lines ++ rest → st'.fp = joinLines lines ++ rest' →
    (readLoop fuel st).grid = (readLoop fuel st').grid ∧
      (readLoop fuel st).row = (readLoop fuel st').row := by
  intro lines
  induction lines with
  | nil => intro fuel st st' rest rest' h; exact absurd rfl h
  | cons l ls ih =>
    intro fuel st st' rest rest' _ hrow hfuel hshort hg hr hfp hfp'
    obtain ⟨hl, hn⟩ := hshort l (List.mem_cons_self _ _)
    cases fuel with
    | zero => simp at hfuel
    | succ fuel =>
      have hf : fgets (st.grid st.row) MAX_SIZE st.fp =
          some (storeString (st.grid st.row) (l ++ ['\n']), joinLines ls ++ rest) := by
        rw [hfp, joinLines, List.append_assoc, List.cons_append]
        exact fgets_line _ l _ hl hn
      have hf' : fgets (st'.grid st'.row) MAX_SIZE st'.fp =
          some (storeString (st.grid st.row) (l ++ ['\n']), joinLines ls ++ rest') := by
        rw [hfp', joinLines, List.append_assoc, List.cons_append, ← hg, ← hr]
        exact fgets_line _ l _ hl hn
      obtain ⟨hbg, hbr⟩ := readBody_congr st st' (storeString (st.grid st.row) (l ++ ['\n']))
        (joinLines ls ++ rest) (joinLines ls ++ rest') hg hr
      rw [readLoop_succ_some fuel st _ _ hf, readLoop_succ_some fuel st' _ _ hf', ← hbr]
      rw [List.length_cons] at hrow hfuel
      by_cases hls : ls = []
      · subst hls
        rw [if_pos (by rw [readBody_row]; simp at hrow; omega),
          if_pos (by rw [readBody_row]; simp at hrow; omega)]
        exact ⟨hbg, hbr⟩
      · have hlen : 0 < ls.length := List.length_pos.mpr hls
        rw [if_neg (by rw [readBody_row]; omega), if_neg (by rw [readBody_row]; omega)]
        exact ih fuel _ _ rest rest' hls (by rw [readBody_row]; omega) (by omega)
          (fun l' hl' => hshort l' (List.mem_cons_of_mem _ hl')) hbg hbr
          (readBody_fp _ _ _) (readBody_fp _ _ _)

theorem loadMaze_congr (content content' : List Char)
    (hg : (readMaze content).grid = (readMaze content').grid)
    (hr : (readMaze content).row = (readMaze content').row) :
    loadMaze content = loadMaze content' := by
  unfold loadMaze
  simp only [hg, hr]

/-- C15 as stated fails.  In `wideFile`, 101 lines that are all shorter than
the column limit of 100, the first line has 99 characters: its newline is
read as a row of its own, so row 1 is empty instead of holding line 1
(`"#S..#"`, which lands in row 2), and the 100 rows kept are not the first
100 lines.  In `nulFile`, 101 short lines of which the first has length 5
and an `'S'` stands at row 1, column 1, the NUL byte in the first line makes
the width 2 and the load fails. -/
theorem hundred_lines_counterexample :
    ((wideLines.length = 101 ∧ ∀ l, l ∈ wideLines → l.length < MAX_SIZE ∧ '\n' ∉ l) ∧
      (readMaze wideFile).row = 100 ∧
      wideLines.getD 1 [] = "#S..#".toList ∧
      rowString ((readMaze wideFile).grid 1) = [] ∧
      rowString ((readMaze wideFile).grid 2) = "#S..#".toList) ∧
    ((nulLines.length = 101 ∧ ∀ l, l ∈ nulLines → l.length < MAX_SIZE ∧ '\n' ∉ l) ∧
      (nulLines.getD 0 []).length = 5 ∧
      strlen ((readMaze nulFile).grid 0) = 2 ∧
      (readMaze nulFile).grid 1 1 = 'S' ∧
      loadMaze nulFile = .error .InvalidDimensions) := by
  refine ⟨⟨⟨by decide, by decide⟩, by decide, by decide, by decide, by decide⟩,
    ⟨by decide, by decide⟩, by decide, by decide, by decide, ?_⟩
  exact loadMaze_invalidDimensions nulFile (Or.inr (Or.inr (Or.inl (by decide))))

/-- C15, amended: when the first 100 lines of a file have at most 98
characters each, `loadMaze` keeps exactly these lines as rows and ignores
whatever follows them.  The height is 100, row `i` holds the characters of
line `i` (and its C string is line `i` when the line has no NUL byte), the
result of the load does not depend on what follows the 100 lines, and the
load succeeds whenever the first line has no NUL byte, has at least 5
characters, and an `'S'` occurs in the kept rows within the first `width`
columns. -/
theorem hundred_short_lines (lines : List (List Char)) (rest : List Char)
    (hcount : lines.length = 100)
    (hshort : ∀ l, l ∈ lines → l.length ≤ 98 ∧ '\n' ∉ l) :
    (readMaze (joinLines lines ++ rest)).row = 100 ∧
    (∀ i x : Nat, i < 100 → x < (lines.getD i []).length →
      (readMaze (joinLines lines ++ rest)).grid i x = (lines.getD i []).getD x NUL) ∧
    (∀ i : Nat, i < 100 → NUL ∉ lines.getD i [] →
      rowString ((readMaze (joinLines lines ++ rest)).grid i) = lines.getD i []) ∧
    (∀ rest' : List Char,
      loadMaze (joinLines lines ++ rest') = loadMaze (joinLines lines ++ rest)) ∧
    (NUL ∉ lines.getD 0 [] → 5 ≤ (lines.getD 0 []).length →
      (∃ i x : Nat, i < 100 ∧ x < (lines.getD 0 []).length ∧
        (lines.getD i [])[x]? = some 'S') →
      ∃ m : Maze, loadMaze (joinLines lines ++ rest) = .ok m ∧ m.height = 100 ∧
        m.width = (lines.getD 0 []).length) := by
  have hM : MAX_SIZE = 100 := rfl
  have hshort' : ∀ l, l ∈ lines → l.length < MAX_SIZE - 1 ∧ '\n' ∉ l := by
    intro l hl
    have := hshort l hl
    exact ⟨by omega, this.2⟩
  have hne : lines ≠ [] := by
    intro he
    rw [he] at hcount
    exact absurd hcount (by decide)
  have hmem : ∀ i, i < 100 → lines.getD i [] ∈ lines := by
    intro i hi
    rw [List.getD_eq_getElem lines [] (by omega)]
    exact List.getElem_mem _
  obtain ⟨hrow, hrows⟩ := readMaze_lines lines rest (by rw [hcount, hM]) hshort'
  have hstr : ∀ i, i < 100 → NUL ∉ lines.getD i [] →
      strlen ((readMaze (joinLines lines ++ rest)).grid i) = (lines.getD i []).length := by
    intro i hi hnul
    have := (hshort' _ (hmem i hi)).1
    exact strlen_of_line _ _ (by omega) hnul ((hrows i (by omega)).1) ((hrows i (by omega)).2 hnul)
  refine ⟨hrow, fun i x hi hx => (hrows i (by omega)).1 x hx, ?_, ?_, ?_⟩
  · intro i hi hnul
    have := (hshort' _ (hmem i hi)).1
    exact rowString_of_line _ _ (by omega) hnul ((hrows i (by omega)).1)
      ((hrows i (by omega)).2 hnul)
  · intro rest'
    obtain ⟨hg, hr⟩ := readLoop_lines_rest lines MAX_SIZE
      { grid := clearedGrid, row := 0, startCount := 0, endCount := 0,
        fp := joinLines lines ++ rest' }
      { grid := clearedGrid, row := 0, startCount := 0, endCount := 0,
        fp := joinLines lines ++ rest } rest' rest hne (by simpa using hcount) (by omega)
      hshort' rfl rfl rfl rfl
    exact loadMaze_congr _ _ hg hr
  · rintro hnul h5 ⟨i, x, hi, hx, hS⟩
    have hw := hstr 0 (by decide) hnul
    have h0 := (hshort _ (hmem 0 (by decide))).1
    have hxi : x < (lines.getD i []).length := by
      by_contra hc
      rw [List.getElem?_eq_none (by omega)] at hS
      cases hS
    have hcell : (readMaze (joinLines lines ++ rest)).grid i x = 'S' := by
      rw [(hrows i (by omega)).1 x hxi, List.getD_eq_getElem?_getD, hS]
      rfl
    have hd : ¬ ((readMaze (joinLines lines ++ rest)).row < 5 ∨
        (readMaze (joinLines lines ++ rest)).row > 100 ∨
        strlen ((readMaze (joinLines lines ++ rest)).grid 0) < 5 ∨
        strlen ((readMaze (joinLines lines ++ rest)).grid 0) > 100) := by
      rw [hrow, hw]
      omega
    obtain ⟨p, hp⟩ := findStart_of_cell (readMaze (joinLines lines ++ rest)).grid
      (strlen ((readMaze (joinLines lines ++ rest)).grid 0))
      (readMaze (joinLines lines ++ rest)).row 0 i x (Nat.zero_le _) (by rw [hrow]; omega)
      (by rw [hw]; exact hx) hcell
    refine ⟨_, loadMaze_found _ p.1 p.2 hd hp, ?_, ?_⟩
    · show ((readMaze (joinLines lines ++ rest)).row : Int) = 100
      rw [hrow]; rfl
    · show (strlen ((readMaze (joinLines lines ++ rest)).grid 0) : Int) = _
      rw [hw]

/-- The amended C15 on 100 lines `"#S..#"` followed by a further line
`"#####"`: 100 rows are read and the load succeeds with width 5. -/
theorem hundred_short_lines_witness :
    (shortLines.length = 100 ∧ ∀ l, l ∈ shortLines → l.length ≤ 98 ∧ '\n' ∉ l) ∧
    (readMaze (joinLines shortLines ++ "#####".toList)).row = 100 ∧
    ∃ m : Maze, loadMaze (joinLines shortLines ++ "#####".toList) = .ok m ∧ m.height = 100 ∧
      m.width = (shortLines.getD 0 []).length :=
  ⟨⟨by decide, by decide⟩,
    (hundred_short_lines shortLines "#####".toList (by decide) (by decide)).1,
    (hundred_short_lines shortLines "#####".toList (by decide) (by decide)).2.2.2.2
      (by decide) (by decide) ⟨0, 1, by decide, by decide, by decide⟩⟩

/-- The first two passes of the read loop on a file for which both `fgets`
calls deliver: rows 0 and 1 are the two buffers after the newline strip. -/
theorem readMaze_two_rows (content : List Char) (buf0 : Row) (fp1 : List Char) (buf1 : Row)
    (fp2 : List Char) (h0 : fgets (clearedGrid 0) MAX_SIZE content = some (buf0, fp1))
    (h1 : fgets (clearedGrid 1) MAX_SIZE fp1 = some (buf1, fp2)) :
    2 ≤ (readMaze content).row ∧ (readMaze content).grid 0 = stripNewline buf0 ∧
      (readMaze content).grid 1 = stripNewline buf1 := by
  have hM : MAX_SIZE = 100 := rfl
  have hr0 : (startState content).row = 0 := rfl
  have hs0 : strlen buf0 < MAX_SIZE := by have := fgets_strlen _ _ _ _ h0; omega
  have hs1 : strlen buf1 < MAX_SIZE := by have := fgets_strlen _ _ _ _ h1; omega
  have hg1 : (readBody (startState content) buf0 fp1).grid =
      setRow clearedGrid 0 (stripNewline buf0) :=
    readBody_grid _ buf0 fp1 hs0
  have h1' : fgets ((readBody (startState content) buf0 fp1).grid
      (readBody (startState content) buf0 fp1).row) MAX_SIZE
      (readBody (startState content) buf0 fp1).fp = some (buf1, fp2) := by
    rw [hg1, readBody_fp, readBody_row]
    exact h1
  have e1 : readMaze content =
      readLoop 98 (readBody (readBody (startState content) buf0 fp1) buf1 fp2) := by
    have a1 := readLoop_succ_some 99 (startState content) buf0 fp1 h0
    rw [if_neg (by rw [readBody_row, hr0]; decide)] at a1
    have a2 := readLoop_succ_some 98 _ buf1 fp2 h1'
    rw [if_neg (by rw [readBody_row, readBody_row, hr0]; decide)] at a2
    exact a1.trans a2
  rw [e1]
  refine ⟨?_, ?_, ?_⟩
  · have hge := readLoop_row_ge 98
      (readBody (readBody (startState content) buf0 fp1) buf1 fp2)
    rw [readBody_row, readBody_row, hr0] at hge
    exact hge
  · rw [readLoop_rows_below 98 _ 0 (by rw [readBody_row, readBody_row, hr0]; decide),
      readBody_grid_other _ buf1 fp2 0 (by rw [readBody_row, hr0]; decide), hg1]
    rfl
  · rw [readLoop_rows_below 98 _ 1 (by rw [readBody_row, readBody_row, hr0]; decide),
      readBody_grid _ buf1 fp2 hs1]
    unfold setRow
    rw [if_pos (by rw [readBody_row, hr0])]

/-- A line of 100 or more characters at the start of the file: row 0 takes
its first 99 characters and row 1 goes on with the characters from index 99. -/
theorem readMaze_long_first_line (l rest : List Char) (hlen : 100 ≤ l.length)
    (hn : '\n' ∉ l) :
    2 ≤ (readMaze (l ++ rest)).row ∧
    (∀ x, x < 99 → (readMaze (l ++ rest)).grid 0 x = l.getD x NUL) ∧
    (readMaze (l ++ rest)).grid 0 99 = NUL ∧
    (∀ x, x < 99 → 99 + x < l.length →
      (readMaze (l ++ rest)).grid 1 x = l.getD (99 + x) NUL) := by
  have hM : MAX_SIZE - 1 = 99 := rfl
  have hc : l ++ rest = l.take 99 ++ (l.drop 99 ++ rest) := by
    rw [← List.append_assoc, List.take_append_drop]
  have ha0 : (l.take 99).length = 99 := by
    rw [List.length_take]
    omega
  have hn0 : '\n' ∉ l.take 99 := fun hm => hn (List.mem_of_mem_take hm)
  have h0 : fgets (clearedGrid 0) MAX_SIZE (l ++ rest) =
      some (storeString (clearedGrid 0) (l.take 99), l.drop 99 ++ rest) := by
    rw [hc]
    exact fgets_full _ _ _ (by rw [ha0, hM]) hn0
  have hb0 : l.drop 99 ++ rest ≠ [] := by
    intro he
    have h1 := (List.append_eq_nil.mp he).1
    rw [List.drop_eq_nil_iff] at h1
    omega
  have h1 := fgets_of_ne_nil (clearedGrid 1) (l.drop 99 ++ rest) hb0
  obtain ⟨hrow, hg0, hg1⟩ := readMaze_two_rows (l ++ rest) _ _ _ _ h0 h1
  have hcell0 : ∀ x, x < 99 → storeString (clearedGrid 0) (l.take 99) x = l.getD x NUL := by
    intro x hx
    rw [storeString_lt _ _ x (by omega), List.getD_eq_getElem?_getD,
      List.getElem?_take_of_lt hx, ← List.getD_eq_getElem?_getD]
  refine ⟨hrow, ?_, ?_, ?_⟩
  · intro x hx
    rw [hg0, stripNewline_of_ne _ x (by rw [hcell0 x hx]; exact getD_ne_newline l hn x (by omega))]
    exact hcell0 x hx
  · rw [hg0]
    apply stripNewline_of_nul
    have := storeString_at_length (clearedGrid 0) (l.take 99)
    rwa [ha0] at this
  · intro x hx hxl
    have hsplit : l.drop 99 ++ rest =
        (l.drop 99).take 99 ++ ((l.drop 99).drop 99 ++ rest) := by
      rw [← List.append_assoc, List.take_append_drop]
    have hn1 : '\n' ∉ (l.drop 99).take 99 :=
      fun hm => hn (List.mem_of_mem_drop (List.mem_of_mem_take hm))
    have hlen1 : x < ((l.drop 99).take 99).length := by
      rw [List.length_take, List.length_drop]
      omega
    have hle1 : ((l.drop 99).take 99).length ≤ MAX_SIZE - 1 := by
      rw [List.length_take, hM]
      omega
    have h1' := h1
    rw [hsplit] at h1'
    have hbuf := fgets_prefix (clearedGrid 1) _ _ _ _ hn1 hle1 h1' x hlen1
    rw [← hsplit] at hbuf
    have hval : ((l.drop 99).take 99).getD x NUL = l.getD (99 + x) NUL := by
      rw [List.getD_eq_getElem?_getD, List.getElem?_take_of_lt hx, List.getElem?_drop,
        ← List.getD_eq_getElem?_getD]
    rw [hg1, stripNewline_of_ne _ x (by
      rw [hbuf, hval]; exact getD_ne_newline l hn (99 + x) hxl), hbuf, hval]

/-! ## Long lines at any place of the file -/

theorem getD_drop (l : List Char) (n i : Nat) :
    (l.drop n).getD i NUL = l.getD (n + i) NUL := by
  rw [List.getD_eq_getElem?_getD, List.getElem?_drop, ← List.getD_eq_getElem?_getD]

theorem getD_take (l : List Char) (n i : Nat) (h : i < n) :
    (l.take n).getD i NUL = l.getD i NUL := by
  rw [List.getD_eq_getElem?_getD, List.getElem?_take_of_lt h, ← List.getD_eq_getElem?_getD]

/-- The read loop on a state whose unread file begins with the newline-free
text `l`: piece `k` of `l`, its characters from index `99 * k` on, is stored
in row `row + k`, as long as that row is below `MAX_SIZE`. -/
theorem readLoop_chunks : ∀ (fuel : Nat) (st : ReadState) (l rest : List Char),
    st.fp = l ++ rest → '\n' ∉ l → st.row < MAX_SIZE → MAX_SIZE ≤ st.row + fuel →
    ∀ k x : Nat, st.row + k < MAX_SIZE → x < 99 → 99 * k + x < l.length →
      st.row + k < (readLoop fuel st).row ∧
      (readLoop fuel st).grid (st.row + k) x = l.getD (99 * k + x) NUL := by
  intro fuel
  induction fuel with
  | zero => intro st l rest _ _ h1 h2; omega
  | succ fuel ih =>
    intro st l rest hfp hn hrow hfuel k x hk hx hlen
    have hM : MAX_SIZE - 1 = 99 := rfl
    have h100 : MAX_SIZE = 100 := rfl
    have hsplit : st.fp = l.take 99 ++ (l.drop 99 ++ rest) := by
      rw [hfp, ← List.append_assoc, List.take_append_drop]
    have hn0 : '\n' ∉ l.take 99 := fun hm => hn (List.mem_of_mem_take hm)
    cases k with
    | zero =>
      have hne : st.fp ≠ [] := by
        rw [hfp]
        intro he
        have h0 : l.length = 0 := by rw [(List.append_eq_nil.mp he).1]; rfl
        omega
      have hf := fgets_of_ne_nil (st.grid st.row) st.fp hne
      have hstr := fgets_strlen _ _ _ _ hf
      have hxa : x < (l.take 99).length := by rw [List.length_take]; omega
      have hla : (l.take 99).length ≤ MAX_SIZE - 1 := by rw [List.length_take]; omega
      have hf' := hf
      rw [hsplit] at hf'
      have hbuf := fgets_prefix (st.grid st.row) _ _ _ _ hn0 hla hf' x hxa
      rw [← hsplit, getD_take l 99 x hx] at hbuf
      have hcell : (readBody st (storeString (st.grid st.row) (fgetsRead (MAX_SIZE - 1) st.fp).1)
          (fgetsRead (MAX_SIZE - 1) st.fp).2).grid st.row x = l.getD x NUL := by
        rw [readBody_grid st _ _ (by omega)]
        unfold setRow
        rw [if_pos rfl, stripNewline_of_ne _ x (by
          rw [hbuf]; exact getD_ne_newline l hn x (by omega)), hbuf]
      rw [readLoop_succ_some fuel st _ _ hf, Nat.add_zero, Nat.mul_zero, Nat.zero_add]
      split_ifs
      · exact ⟨by rw [readBody_row]; omega, hcell⟩
      · refine ⟨?_, ?_⟩
        · have := readLoop_row_ge fuel (readBody st
            (storeString (st.grid st.row) (fgetsRead (MAX_SIZE - 1) st.fp).1)
            (fgetsRead (MAX_SIZE - 1) st.fp).2)
          rw [readBody_row] at this
          omega
        · rw [readLoop_rows_below fuel _ st.row (by rw [readBody_row]; omega)]
          exact hcell
    | succ k =>
      have hla : (l.take 99).length = MAX_SIZE - 1 := by rw [List.length_take]; omega
      have hf : fgets (st.grid st.row) MAX_SIZE st.fp =
          some (storeString (st.grid st.row) (l.take 99), l.drop 99 ++ rest) := by
        rw [hsplit]
        exact fgets_full _ _ _ hla hn0
      rw [readLoop_succ_some fuel st _ _ hf, if_neg (by rw [readBody_row]; omega)]
      have hrec := ih (readBody st (storeString (st.grid st.row) (l.take 99))
        (l.drop 99 ++ rest)) (l.drop 99) rest (readBody_fp _ _ _)
        (fun hm => hn (List.mem_of_mem_drop hm)) (by rw [readBody_row]; omega)
        (by rw [readBody_row]; omega) k x (by rw [readBody_row]; omega) hx
        (by rw [List.length_drop]; omega)
      rw [readBody_row, getD_drop] at hrec
      rw [show st.row + (k + 1) = st.row + 1 + k by omega,
        show 99 * (k + 1) + x = 99 + (99 * k + x) by omega]
      exact hrec

theorem fgetsRead_line_end : ∀ (b : List Char) (k : Nat) (tail : List Char),
    fgetsRead k ((b ++ ['\n']) ++ tail) =
      ((fgetsRead k (b ++ ['\n'])).1, (fgetsRead k (b ++ ['\n'])).2 ++ tail) ∧
    ((fgetsRead k (b ++ ['\n'])).2 = [] ∨
      ∃ b', (fgetsRead k (b ++ ['\n'])).2 = b' ++ ['\n']) := by
  intro b
  induction b with
  | nil =>
    intro k tail
    cases k with
    | zero => exact ⟨rfl, Or.inr ⟨[], rfl⟩⟩
    | succ k => exact ⟨by simp [fgetsRead], Or.inl (by simp [fgetsRead])⟩
  | cons c b ih =>
    intro k tail
    cases k with
    | zero => exact ⟨rfl, Or.inr ⟨c :: b, rfl⟩⟩
    | succ k =>
      by_cases hc : c = '\n'
      · refine ⟨?_, Or.inr ⟨b, ?_⟩⟩
        · simp [fgetsRead, hc]
        · simp [fgetsRead, hc]
      · obtain ⟨h1, h2⟩ := ih k tail
        refine ⟨?_, ?_⟩
        · show fgetsRead (k + 1) (c :: ((b ++ ['\n']) ++ tail)) =
            ((fgetsRead (k + 1) (c :: (b ++ ['\n']))).1,
              (fgetsRead (k + 1) (c :: (b ++ ['\n']))).2 ++ tail)
          rw [fgetsRead, if_neg hc, fgetsRead, if_neg hc, h1]
        · show (fgetsRead (k + 1) (c :: (b ++ ['\n']))).2 = [] ∨
            ∃ b', (fgetsRead (k + 1) (c :: (b ++ ['\n']))).2 = b' ++ ['\n']
          rw [fgetsRead, if_neg hc]
          exact h2

theorem readBody_withFp (st : ReadState) (a : List Char) (buf : Row) (fp fp2 : List Char) :
    readBody (withFp st a) buf fp = withFp (readBody st buf fp2) fp := rfl

/-- Reading is compositional at the end of a line: when the text `before`
is empty or ends with a newline and does not fill the grid, the loop on
`before ++ tail` reads `before` as it would alone and goes on with `tail`. -/
theorem readLoop_prefix : ∀ (fuel : Nat) (st : ReadState) (before tail : List Char),
    (before = [] ∨ ∃ b, before = b ++ ['\n']) → st.row < MAX_SIZE → MAX_SIZE ≤ st.row + fuel →
    (readLoop fuel (withFp st before)).row < MAX_SIZE →
    ∃ fuel', MAX_SIZE ≤ (readLoop fuel (withFp st before)).row + fuel' ∧
      readLoop fuel (withFp st (before ++ tail)) =
        readLoop fuel' (withFp (readLoop fuel (withFp st before)) tail) := by
  intro fuel
  induction fuel with
  | zero => intro st before tail _ h1 h2; omega
  | succ fuel ih =>
    intro st before tail hb hrow hfuel hend
    rcases hb with hb | ⟨b, hb⟩
    · subst hb
      have hnone : fgets ((withFp st []).grid (withFp st []).row) MAX_SIZE (withFp st []).fp =
          none := rfl
      rw [readLoop_succ_none fuel _ hnone]
      exact ⟨fuel + 1, hfuel, rfl⟩
    · subst hb
      obtain ⟨h1, h2⟩ := fgetsRead_line_end b (MAX_SIZE - 1) tail
      have hf : fgets ((withFp st (b ++ ['\n'])).grid (withFp st (b ++ ['\n'])).row) MAX_SIZE
          (withFp st (b ++ ['\n'])).fp =
          some (storeString (st.grid st.row) (fgetsRead (MAX_SIZE - 1) (b ++ ['\n'])).1,
            (fgetsRead (MAX_SIZE - 1) (b ++ ['\n'])).2) :=
        fgets_of_ne_nil _ _ (by show b ++ ['\n'] ≠ []; simp)
      have hf' : fgets ((withFp st ((b ++ ['\n']) ++ tail)).grid
          (withFp st ((b ++ ['\n']) ++ tail)).row) MAX_SIZE
          (withFp st ((b ++ ['\n']) ++ tail)).fp =
          some (storeString (st.grid st.row) (fgetsRead (MAX_SIZE - 1) (b ++ ['\n'])).1,
            (fgetsRead (MAX_SIZE - 1) (b ++ ['\n'])).2 ++ tail) := by
        have := fgets_of_ne_nil (st.grid st.row) ((b ++ ['\n']) ++ tail) (by simp)
        rw [h1] at this
        exact this
      rw [readLoop_succ_some fuel _ _ _ hf] at hend ⊢
      rw [readLoop_succ_some fuel _ _ _ hf']
      rw [readBody_withFp st _ _ _ []] at hend ⊢
      rw [readBody_withFp st _ _ _ []]
      by_cases hr : (readBody st (storeString (st.grid st.row)
          (fgetsRead (MAX_SIZE - 1) (b ++ ['\n'])).1) []).row ≥ MAX_SIZE
      · have hr' : (withFp (readBody st (storeString (st.grid st.row)
            (fgetsRead (MAX_SIZE - 1) (b ++ ['\n'])).1) [])
            (fgetsRead (MAX_SIZE - 1) (b ++ ['\n'])).2).row ≥ MAX_SIZE := hr
        rw [if_pos hr'] at hend
        exact absurd hend (by
          show ¬ (readBody st (storeString (st.grid st.row)
            (fgetsRead (MAX_SIZE - 1) (b ++ ['\n'])).1) []).row < MAX_SIZE
          omega)
      · have hr1 : ¬ (withFp (readBody st (storeString (st.grid st.row)
            (fgetsRead (MAX_SIZE - 1) (b ++ ['\n'])).1) [])
            (fgetsRead (MAX_SIZE - 1) (b ++ ['\n'])).2).row ≥ MAX_SIZE := hr
        have hr2 : ¬ (withFp (readBody st (storeString (st.grid st.row)
            (fgetsRead (MAX_SIZE - 1) (b ++ ['\n'])).1) [])
            ((fgetsRead (MAX_SIZE - 1) (b ++ ['\n'])).2 ++ tail)).row ≥ MAX_SIZE := hr
        rw [if_neg hr1] at hend ⊢
        rw [if_neg hr2]
        rw [readBody_row] at hr
        exact ih _ _ tail h2 (by rw [readBody_row]; omega) (by rw [readBody_row]; omega) hend

/-- A newline-free text `l` that follows a text `before` which is empty or
ends with a newline, that is, a line or the beginning of one: with `r` the
number of rows that `before` takes, piece `k` of `l` (its characters from
index `99 * k` on) is stored in row `r + k`, whenever that row is below
`MAX_SIZE`. -/
theorem readMaze_line_chunks (before l rest : List Char)
    (hb : before = [] ∨ ∃ b, before = b ++ ['\n']) (hn : '\n' ∉ l) (k x : Nat)
    (hk : (readMaze before).row + k < MAX_SIZE) (hx : x < 99) (hlen : 99 * k + x < l.length) :
    (readMaze before).row + k < (readMaze (before ++ (l ++ rest))).row ∧
    (readMaze (before ++ (l ++ rest))).grid ((readMaze before).row + k) x =
      l.getD (99 * k + x) NUL := by
  have hs : ∀ c, readMaze c = readLoop MAX_SIZE (withFp (startState []) c) := fun _ => rfl
  have hend : (readLoop MAX_SIZE (withFp (startState []) before)).row < MAX_SIZE := by
    rw [← hs]; omega
  obtain ⟨fuel', hfuel', heq⟩ := readLoop_prefix MAX_SIZE (startState []) before (l ++ rest) hb
    (by decide) (by decide) hend
  rw [hs (before ++ (l ++ rest)), heq, ← hs]
  exact readLoop_chunks fuel' (withFp (readMaze before) (l ++ rest)) l rest rfl hn
    (by show (readMaze before).row < MAX_SIZE; omega) hfuel' k x hk hx hlen

/-- C18 as stated fails at the row limit: in `lastRowLongFile` the line of
150 characters starts in row 99, the last of the 100 rows; the row holds its
first 99 characters, and its characters from index 99 on are stored in no
row but are still unread when the loop leaves. -/
theorem long_line_counterexample :
    (readMaze lastRowLongFile).row = 100 ∧
    (readMaze (joinLines (List.replicate 99 "#S..#".toList))).row = 99 ∧
    rowString ((readMaze lastRowLongFile).grid 99) = List.replicate 99 '#' ∧
    (readMaze lastRowLongFile).fp = List.replicate 51 '.' ++ "\n#####".toList ∧
    ∃ m : Maze, loadMaze lastRowLongFile = .ok m ∧ m.height = 100 := by
  refine ⟨by decide, by decide, by decide, by decide, _,
    loadMaze_found lastRowLongFile 0 1 (by decide) (by decide), by decide⟩

/-- C18, amended: every row that `loadMaze` stores has at most 99
characters, so the width of a loaded maze is at most 99, never 100.  The
string that `fgets` leaves in the buffer is shorter than `MAX_SIZE`, also
after the newline strip, so the condition `len >= MAX_SIZE` of the
truncation branch is never true.  An `fgets` call on more than 99
newline-free characters takes the first 99 and leaves the rest unread for
the next call: a line anywhere in the file is split into pieces of 99
characters, and piece `k`, its characters from index `99 * k` on, is stored
in the `k`-th row after the row in which the line starts, whenever that row
is below the limit of `MAX_SIZE` rows. -/
theorem rows_at_most_99 :
    (∀ (content : List Char) (y : Nat), strlen ((readMaze content).grid y) ≤ 99) ∧
    (∀ (content : List Char) (m : Maze), loadMaze content = .ok m → m.width ≤ 99) ∧
    (∀ (buf0 : Row) (fp : List Char) (buf : Row) (fp' : List Char),
      fgets buf0 MAX_SIZE fp = some (buf, fp') →
      ¬ ((if (decide (strlen buf > 0) && (buf (strlen buf - 1) == '\n')) = true
          then strlen buf - 1 else strlen buf) ≥ MAX_SIZE)) ∧
    (∀ (buf0 : Row) (a b : List Char), a.length = 99 → '\n' ∉ a →
      fgets buf0 MAX_SIZE (a ++ b) = some (storeString buf0 a, b)) ∧
    (∀ (before l rest : List Char), (before = [] ∨ ∃ b, before = b ++ ['\n']) → '\n' ∉ l →
      ∀ k x : Nat, (readMaze before).row + k < MAX_SIZE → x < 99 → 99 * k + x < l.length →
        (readMaze before).row + k < (readMaze (before ++ (l ++ rest))).row ∧
        (readMaze (before ++ (l ++ rest))).grid ((readMaze before).row + k) x =
          l.getD (99 * k + x) NUL) := by
  have hM : MAX_SIZE - 1 = 99 := rfl
  refine ⟨?_, ?_, ?_, ?_, readMaze_line_chunks⟩
  · intro content y
    exact readMaze_strlen_le content y
  · intro content m h
    obtain ⟨_, _, _, _, _, hm⟩ := loadMaze_ok content m h
    subst hm
    show (strlen ((readMaze content).grid 0) : Int) ≤ 99
    have := readMaze_strlen_le content 0
    omega
  · intro buf0 fp buf fp' h
    have hlen := fgets_strlen buf0 fp buf fp' h
    have h100 : MAX_SIZE = 100 := rfl
    split_ifs <;> omega
  · intro buf0 a b ha hn
    exact fgets_full buf0 a b (by rw [ha, hM]) hn

/-- The amended C18 on a line of 120 characters, 99 times `'#'` and 21 times
`'.'`, that follows the line `"#####"`: the text before it takes one row,
and the second piece of the line starts row 2 with the character at index
99. -/
theorem rows_at_most_99_witness :
    ("#####\n".toList = "#####".toList ++ ['\n'] ∧ '\n' ∉ midLongLine) ∧
    ((readMaze "#####\n".toList).row + 1 < MAX_SIZE ∧ 0 < 99 ∧
      99 * 1 + 0 < midLongLine.length) ∧
    ((readMaze "#####\n".toList).row + 1 <
        (readMaze ("#####\n".toList ++ (midLongLine ++ "\n#S..#".toList))).row ∧
      (readMaze ("#####\n".toList ++ (midLongLine ++ "\n#S..#".toList))).grid
          ((readMaze "#####\n".toList).row + 1) 0 = midLongLine.getD (99 * 1 + 0) NUL) :=
  ⟨⟨by decide, by decide⟩, ⟨by decide, by decide, by decide⟩,
    rows_at_most_99.2.2.2.2 "#####\n".toList midLongLine "\n#S..#".toList
      (Or.inr ⟨"#####".toList, by decide⟩) (by decide) 1 0 (by decide) (by decide)
      (by decide)⟩

end MazeGame
